import Mathlib

set_option maxRecDepth 10000

/-!
Shallow embedding of the DiscoEditorPub sources
(`2k25_player_patcher_gui_patched_homepage.py` and `offsets_reader.py`).

Conventions of the embedding:
* Python arbitrary-precision integers are `Int`/`Nat`.
* Python floats live in `ℚ`: `convert_raw_to_rating` and
  `convert_tendency_raw_to_rating` give the exact-value semantics, their
  `_float` variants round every operation to binary64 with `roundB64`;
  `round` (which in Python rounds halves to the even neighbour) is
  `pyRound`.
* Python byte strings are `List Nat` with every element below 256; UTF-16
  strings are lists of code units (`List Nat`).
* A raised-and-caught exception is modelled by the `Option`/`Bool` failure
  value that the corresponding `except` branch of the source returns.
-/

/-! ### Rating conversion helpers (source lines 118-245) -/

/-- `RATING_MIN = 25` from the source. -/
def RATING_MIN : Int := 25

/-- `RATING_MAX_DISPLAY = 99` from the source. -/
def RATING_MAX_DISPLAY : Int := 99

/-- `RATING_MAX_TRUE = 110` from the source. -/
def RATING_MAX_TRUE : Int := 110

/-- The two attribute storage modes named by the string constants
`'direct'` and `'scale'` in the source. -/
inductive StorageMode where
  | direct : StorageMode
  | scale : StorageMode
deriving DecidableEq

/-- `ATTR_STORAGE_MODE = 'scale'` from the source. -/
def ATTR_STORAGE_MODE : StorageMode := .scale

/-- Python's built-in `round` on an exact value: round to nearest, ties to
the even integer (banker's rounding), as `round` does on floats. -/
def pyRound (q : ℚ) : Int :=
  let f := ⌊q⌋
  if q - f < 1/2 then f
  else if 1/2 < q - f then f + 1
  else if f % 2 = 0 then f else f + 1

/-- `convert_raw_to_rating(raw, length)` (source lines 163-182), exact-value
semantics: the float arithmetic of line 176 is evaluated in `ℚ` without
binary64 rounding (see `convert_raw_to_rating_float` below for the
rounded-per-operation semantics).  A negative `length` makes `1 << length`
raise in Python; the `except` branch returns `RATING_MIN`, modelled by the
first guard. -/
def convert_raw_to_rating (raw : Int) (length : Int) : Int :=
  if length < 0 then RATING_MIN
  else
    let maxRaw : Int := 2 ^ length.toNat - 1
    if maxRaw ≤ 0 then RATING_MIN
    else
      let rating : ℚ :=
        if ATTR_STORAGE_MODE = .direct ∧ RATING_MAX_TRUE ≤ maxRaw then (raw : ℚ)
        else (RATING_MIN : ℚ) + ((raw : ℚ) / (maxRaw : ℚ)) * ((RATING_MAX_TRUE : ℚ) - (RATING_MIN : ℚ))
      let rating :=
        if rating < (RATING_MIN : ℚ) then (RATING_MIN : ℚ)
        else if (RATING_MAX_TRUE : ℚ) < rating then (RATING_MAX_TRUE : ℚ)
        else rating
      pyRound rating

/-- `convert_rating_to_raw(rating, length)` (source lines 184-210). -/
def convert_rating_to_raw (rating : ℚ) (length : Int) : Int :=
  if length < 0 then 0
  else
    let maxRaw : Int := 2 ^ length.toNat - 1
    if maxRaw ≤ 0 then 0
    else
      let r : ℚ :=
        if rating < (RATING_MIN : ℚ) then (RATING_MIN : ℚ)
        else if (RATING_MAX_TRUE : ℚ) < rating then (RATING_MAX_TRUE : ℚ)
        else rating
      let rawVal : Int :=
        if ATTR_STORAGE_MODE = .direct ∧ RATING_MAX_TRUE ≤ maxRaw then pyRound r
        else
          let fraction : ℚ := (r - (RATING_MIN : ℚ)) / ((RATING_MAX_TRUE : ℚ) - (RATING_MIN : ℚ))
          let fraction := if fraction < 0 then 0 else if 1 < fraction then 1 else fraction
          pyRound (fraction * (maxRaw : ℚ))
      if rawVal < 0 then 0 else if maxRaw < rawVal then maxRaw else rawVal

/-- `convert_tendency_raw_to_rating(raw, length)` (source lines 212-245),
exact-value semantics of the float arithmetic (the rounded-per-operation
variant is `convert_tendency_raw_to_rating_float` below). -/
def convert_tendency_raw_to_rating (raw : Int) (length : Int) : Int :=
  if length < 0 then 0
  else
    let maxRaw : Int := 2 ^ length.toNat - 1
    if maxRaw ≤ 0 then 0
    else
      let rating : ℚ := ((raw : ℚ) / (maxRaw : ℚ)) * 100
      let rating := if rating < 0 then 0 else if 100 < rating then 100 else rating
      pyRound rating

/-- Round an exact value to the nearest IEEE binary64 double: round to
nearest with ties to the even 53-bit significand, which on the scaled
significand is exactly Python's `round` tie rule (`pyRound`).  Every value
the decoders below can produce from a bitfield of at most 64 bits stays
far inside the normal binary64 range, so overflow and subnormal rounding
need not be modelled. -/
def roundB64 (q : ℚ) : ℚ :=
  if q = 0 then 0
  else
    let e : ℤ := Int.log 2 |q|
    (pyRound (q / 2 ^ (e - 52)) : ℚ) * 2 ^ (e - 52)

/-- The double-precision evaluation of source line 176,
`RATING_MIN + (int(raw) / max_raw) * (RATING_MAX_TRUE - RATING_MIN)`:
the int/int true division returns the correctly rounded double of the
exact quotient, and the multiplication and addition each round their
exact result to binary64. -/
def floatScaledRating (raw length : Int) : ℚ :=
  roundB64 ((25 : ℚ) +
    roundB64 (roundB64 ((raw : ℚ) / (((2 : Int) ^ length.toNat - 1 : Int) : ℚ)) * 85))

/-- The double-precision evaluation of source line 241,
`(raw / max_raw) * 100.0`. -/
def floatScaledTendency (raw length : Int) : ℚ :=
  roundB64 (roundB64 ((raw : ℚ) / (((2 : Int) ^ length.toNat - 1 : Int) : ℚ)) * 100)

/-- `convert_raw_to_rating(raw, length)` (source lines 163-182) with the
float arithmetic of line 176 rounded to binary64 at every operation.
`convert_raw_to_rating` above is the exact-value semantics of the same
lines; the two differ once the double chain hits an exact half-integer,
see the C7 counterexample. -/
def convert_raw_to_rating_float (raw : Int) (length : Int) : Int :=
  if length < 0 then RATING_MIN
  else
    let maxRaw : Int := 2 ^ length.toNat - 1
    if maxRaw ≤ 0 then RATING_MIN
    else
      let rating : ℚ :=
        if ATTR_STORAGE_MODE = .direct ∧ RATING_MAX_TRUE ≤ maxRaw then (raw : ℚ)
        else floatScaledRating raw length
      let rating :=
        if rating < (RATING_MIN : ℚ) then (RATING_MIN : ℚ)
        else if (RATING_MAX_TRUE : ℚ) < rating then (RATING_MAX_TRUE : ℚ)
        else rating
      pyRound rating

/-- `convert_tendency_raw_to_rating(raw, length)` (source lines 212-245)
with the float arithmetic of line 241 rounded to binary64. -/
def convert_tendency_raw_to_rating_float (raw : Int) (length : Int) : Int :=
  if length < 0 then 0
  else
    let maxRaw : Int := 2 ^ length.toNat - 1
    if maxRaw ≤ 0 then 0
    else
      let rating : ℚ := floatScaledTendency raw length
      let rating := if rating < 0 then 0 else if 100 < rating then 100 else rating
      pyRound rating

/-- Integer clamp of a rating into `[25, 110]`, the spec's `clamp`. -/
def clampRating (r : Int) : Int :=
  if r < 25 then 25 else if 110 < r then 110 else r

/-- Spec-side description of the `scale`-mode decoder input: the raw value
linearly interpolated from `0..2^width-1` onto `[25, 110]`. -/
def specScaledRating (raw length : Int) : ℚ :=
  25 + ((raw : ℚ) / (((2 : Int) ^ length.toNat - 1 : Int) : ℚ)) * (110 - 25)

/-- Spec-side clamp of a rating value into `[25, 110]`. -/
def specClampRating (q : ℚ) : ℚ :=
  if q < 25 then 25 else if 110 < q then 110 else q

/-- Spec-side description of the tendency decoder input: the raw value
linearly interpolated from `0..2^width-1` onto `[0, 100]`. -/
def specScaledTendency (raw length : Int) : ℚ :=
  ((raw : ℚ) / (((2 : Int) ^ length.toNat - 1 : Int) : ℚ)) * 100

/-- Spec-side clamp of a tendency value into `[0, 100]`. -/
def specClampTendency (q : ℚ) : ℚ :=
  if q < 0 then 0 else if 100 < q then 100 else q

/-! ### UTF-16 code-unit strings and Python character predicates

Python strings decoded from game memory are modelled as lists of UTF-16
code units (`List Nat`).  The character-class predicates mirror
`str.isspace`, `str.isprintable` and `str.isalpha` exactly on the
ASCII/Latin-1 range that all concrete inputs below use; outside that range
they are stated approximations of the Unicode tables. -/

/-- One Python string as a list of UTF-16 code units. -/
abbrev PyStr := List Nat

/-- Whitespace code units removed by `str.strip()` (ASCII/Latin-1 part of
Python's Unicode whitespace table). -/
def pyIsSpaceUnit (c : Nat) : Bool :=
  c = 9 || c = 10 || c = 11 || c = 12 || c = 13 ||
  c = 28 || c = 29 || c = 30 || c = 31 || c = 32 || c = 133 || c = 160

/-- `str.isprintable` per code unit (exact on ASCII/Latin-1: controls,
DEL and the C1 block plus NBSP are not printable). -/
def pyIsPrintableUnit (c : Nat) : Bool :=
  32 ≤ c && c ≠ 127 && !(128 ≤ c && c ≤ 160)

/-- `str.isalpha` per code unit (exact on ASCII letters). -/
def pyIsAlphaUnit (c : Nat) : Bool :=
  (65 ≤ c && c ≤ 90) || (97 ≤ c && c ≤ 122)

/-- `s.strip()`: drop leading and trailing whitespace. -/
def stripUnits (s : PyStr) : PyStr :=
  ((s.dropWhile pyIsSpaceUnit).reverse.dropWhile pyIsSpaceUnit).reverse

/-- `s.isprintable()` on a whole string (true on the empty string, as in
Python). -/
def isPrintableStr (s : PyStr) : Bool := s.all pyIsPrintableUnit

/-- `PlayerDataModel._is_printable_ascii(s)` with its default
`min_len=2, max_len=48` (source lines 1848-1873). -/
def isPrintableAsciiBar (s : PyStr) : Bool :=
  if s.isEmpty then false
  else
    let t := stripUnits s
    if !(2 ≤ t.length && t.length ≤ 48) then false
    else if !isPrintableStr t then false
    else decide (2 ≤ t.countP (fun c => pyIsAlphaUnit c))

/-- Decimal digits of a natural number as ASCII code units, fuel recursion
on the number of digits (`str(n)` in Python). -/
def natUnitsAux : Nat → Nat → List Nat
  | 0, _ => []
  | fuel + 1, n => if n < 10 then [48 + n] else natUnitsAux fuel (n / 10) ++ [48 + n % 10]

/-- `str(n)` for a natural number, as ASCII code units. -/
def natUnits (n : Nat) : List Nat := natUnitsAux (n + 1) n

/-- Left inverse of `natUnits`: read a decimal digit string back. -/
def unitsToNat (s : List Nat) : Nat := s.foldl (fun acc d => acc * 10 + (d - 48)) 0

/-- The code units of `"Free Agents"`. -/
def FREE_AGENTS_UNITS : PyStr := [70, 114, 101, 101, 32, 65, 103, 101, 110, 116, 115]

/-- The code units of `"Unknown"`. -/
def UNKNOWN_UNITS : PyStr := [85, 110, 107, 110, 111, 119, 110]

/-! ### Foreign-process memory model

`GameMemory` (source lines 1069-1245) is modelled by its observable state:
whether a process is attached (`hproc` and `base_addr` set and
`open_process()` succeeding), the module base address, which addresses can
currently be read or written (a failing `ReadProcessMemory` /
`WriteProcessMemory` raises, which every caller catches), and the byte
content of the foreign address space. -/

/-- Observable state of `GameMemory`. -/
structure GameMem where
  attached : Bool
  baseAddr : Nat
  readable : Nat → Bool
  writable : Nat → Bool
  ram : Nat → Nat

/-- One byte of foreign memory (bytes returned by `ReadProcessMemory` are
always in `0..255`). -/
def memByte (m : GameMem) (a : Nat) : Nat := m.ram a % 256

/-- `int.from_bytes(bs, "little")`. -/
def fromBytesLE : List Nat → Nat
  | [] => 0
  | b :: bs => b + 256 * fromBytesLE bs

/-- `n.to_bytes(k, "little")`. -/
def toBytesLE (k n : Nat) : List Nat :=
  (List.range k).map fun i => (n >>> (8 * i)) % 256

/-- `GameMemory.read_bytes(addr, n)`: `some` bytes, or `none` when the OS
read fails (modelling the raised `RuntimeError`). -/
def readBytes (m : GameMem) (addr n : Nat) : Option (List Nat) :=
  if (List.range n).all (fun i => m.readable (addr + i)) then
    some ((List.range n).map fun i => memByte m (addr + i))
  else none

/-- `GameMemory.write_bytes(addr, bs)`: the updated memory, or `none` when
the OS write fails. -/
def writeBytes (m : GameMem) (addr : Nat) (bs : List Nat) : Option GameMem :=
  if (List.range bs.length).all (fun i => m.writable (addr + i)) then
    some { m with ram := fun x => if addr ≤ x ∧ x < addr + bs.length then bs.getD (x - addr) 0 else m.ram x }
  else none

/-- `GameMemory.read_uint32`. -/
def readUInt32 (m : GameMem) (addr : Nat) : Option Nat :=
  (readBytes m addr 4).map fromBytesLE

/-- `GameMemory.read_uint64`. -/
def readUInt64 (m : GameMem) (addr : Nat) : Option Nat :=
  (readBytes m addr 8).map fromBytesLE

/-- Pair up little-endian bytes into UTF-16 code units. -/
def unitsOfBytes : List Nat → List Nat
  | b0 :: b1 :: rest => (b0 + 256 * b1) :: unitsOfBytes rest
  | _ => []

/-- `GameMemory.read_wstring(addr, max_chars)`: decode `max_chars` UTF-16LE
code units and truncate at the first NUL. -/
def readWString (m : GameMem) (addr maxChars : Nat) : Option PyStr :=
  (readBytes m addr (maxChars * 2)).map fun bs => (unitsOfBytes bs).takeWhile (· ≠ 0)

/-! ### Static layout constants (source lines 58-99 and 455-497) -/

/-- `PLAYER_TABLE_RVA = 0x07E52998`. -/
def PLAYER_TABLE_RVA : Nat := 0x07E52998

/-- `PLAYER_STRIDE = 0x448`. -/
def PLAYER_STRIDE : Nat := 0x448

/-- `OFF_LAST_NAME = 0x000`. -/
def OFF_LAST_NAME : Nat := 0x000

/-- `OFF_FIRST_NAME = 0x028`. -/
def OFF_FIRST_NAME : Nat := 0x028

/-- `OFF_FACE_ID = 0x114`. -/
def OFF_FACE_ID : Nat := 0x114

/-- `OFF_TEAM_PTR = 0x060`. -/
def OFF_TEAM_PTR : Nat := 0x060

/-- `OFF_TEAM_NAME = 0x2D4`. -/
def OFF_TEAM_NAME : Nat := 0x2D4

/-- `NAME_MAX_CHARS = 20`. -/
def NAME_MAX_CHARS : Nat := 20

/-- `TEAM_NAME_OFFSET = 0x2D4`. -/
def TEAM_NAME_OFFSET : Nat := 0x2D4

/-- `TEAM_NAME_LENGTH = 24`. -/
def TEAM_NAME_LENGTH : Nat := 24

/-- `TEAM_YEAR_OFFSET = 0x161A`. -/
def TEAM_YEAR_OFFSET : Nat := 0x161A

/-- `PLAYER_PTR_CHAINS` (source lines 72-83): `(rva_offset, final_offset,
extra_deref)` candidates, in priority order. -/
def PLAYER_PTR_CHAINS : List (Nat × Nat × Bool) :=
  [(0x07E39430, 0x18, true), (0x06E14E48, 0x148, false),
   (0x07E52998, 0x0, false), (0x07E5DD88, 0x0, false)]

/-- `TEAM_PTR_CHAINS` (source lines 490-497). -/
def TEAM_PTR_CHAINS : List (Nat × Nat × Bool) :=
  [(0x07E39430, 0x88, true), (0x07E39430, 0x0, false), (0x07DFFAC0, 0x0, false)]

/-! ### PlayerDataModel state and pointer resolution (source lines 2404-2525) -/

/-- The parts of `PlayerDataModel` state the verified operations touch:
the memory session and the two cached resolved bases. -/
structure Model where
  mem : GameMem
  resolvedPlayerBase : Option Nat
  resolvedTeamBase : Option Nat

/-- Dereference one candidate chain `(rva, final_offset, extra_deref)` down
to its table base; `none` when a read inside the chain fails. -/
def chainBase (m : GameMem) : Nat × Nat × Bool → Option Nat
  | (rva, finalOff, extraDeref) => do
    let p ← readUInt64 m (m.baseAddr + rva)
    let p ← if extraDeref then readUInt64 m p else some p
    some (p + finalOff)

/-- The player-table validator: decode both name fields of slot 0 and
accept when either strips to a non-empty string; a failed read rejects. -/
def playerValidate (m : GameMem) (tableBase : Nat) : Bool :=
  match readWString m (tableBase + OFF_LAST_NAME) NAME_MAX_CHARS,
        readWString m (tableBase + OFF_FIRST_NAME) NAME_MAX_CHARS with
  | some ln, some fn => !(stripUnits ln).isEmpty || !(stripUnits fn).isEmpty
  | _, _ => false

/-- The team-table validator: the stripped slot-0 name must be non-empty,
printable and contain at least two letters; a failed read rejects. -/
def teamValidate (m : GameMem) (teamBase : Nat) : Bool :=
  match readWString m (teamBase + TEAM_NAME_OFFSET) TEAM_NAME_LENGTH with
  | some nm =>
    let name := stripUnits nm
    if name.isEmpty then false
    else isPrintableStr name && decide (2 ≤ name.countP (fun c => pyIsAlphaUnit c))
  | none => false

/-- The candidate loop shared by both resolvers.  The first component is
what the source computes; the second instruments the loop with the list of
table bases on which validation was attempted, so that theorems can speak
about which candidates were tried. -/
def resolveLoop (validate : GameMem → Nat → Bool) (m : GameMem) :
    List (Nat × Nat × Bool) → Option Nat × List Nat
  | [] => (none, [])
  | c :: rest =>
    match chainBase m c with
    | none => resolveLoop validate m rest
    | some tb =>
      if validate m tb then (some tb, [tb])
      else
        let r := resolveLoop validate m rest
        (r.1, tb :: r.2)

/-- `PlayerDataModel._resolve_player_table_base` (source lines 2404-2475):
cached; candidate loop over `PLAYER_PTR_CHAINS`; static fallback at
`module_base + PLAYER_TABLE_RVA`, validated the same way. -/
def resolvePlayerTableBase (st : Model) : Option Nat × Model :=
  match st.resolvedPlayerBase with
  | some b => (some b, st)
  | none =>
    if !st.mem.attached then (none, st)
    else
      match (resolveLoop playerValidate st.mem PLAYER_PTR_CHAINS).1 with
      | some tb => (some tb, { st with resolvedPlayerBase := some tb })
      | none =>
        let fb := st.mem.baseAddr + PLAYER_TABLE_RVA
        if playerValidate st.mem fb then (some fb, { st with resolvedPlayerBase := some fb })
        else (none, st)

/-- `PlayerDataModel._resolve_team_base_ptr` (source lines 2477-2525):
cached; candidate loop over `TEAM_PTR_CHAINS`; no static fallback. -/
def resolveTeamBasePtr (st : Model) : Option Nat × Model :=
  match st.resolvedTeamBase with
  | some b => (some b, st)
  | none =>
    if !st.mem.attached then (none, st)
    else
      match (resolveLoop teamValidate st.mem TEAM_PTR_CHAINS).1 with
      | some tb => (some tb, { st with resolvedTeamBase := some tb })
      | none => (none, st)

/-- Whether a candidate chain fully succeeds (dereferences and validates). -/
def chainOk (validate : GameMem → Nat → Bool) (m : GameMem) (c : Nat × Nat × Bool) : Bool :=
  match chainBase m c with
  | some tb => validate m tb
  | none => false


/-! ### Low-level field access (source lines 2311-2399) -/

/-- `PlayerDataModel.get_field_value` (source lines 2311-2351).  Returns the
read value together with the model state after the internal resolution
(which may fill the cache); any failure yields `none`. -/
def getFieldValue (st : Model) (playerIndex offset startBit length : Nat) :
    Option Nat × Model :=
  if !st.mem.attached then (none, st)
  else
    match resolvePlayerTableBase st with
    | (none, st1) => (none, st1)
    | (some base, st1) =>
      let addr := base + playerIndex * PLAYER_STRIDE + offset
      let bytesNeeded := (startBit + length + 7) / 8
      match readBytes st1.mem addr bytesNeeded with
      | none => (none, st1)
      | some raw => (some ((fromBytesLE raw >>> startBit) &&& ((1 <<< length) - 1)), st1)

/-- `PlayerDataModel.set_field_value` (source lines 2353-2399).  The
`current &= ~mask` of the source, on a non-negative `current`, clears
exactly the mask bits; on `Nat` that is `current ^^^ (current &&& mask)`. -/
def setFieldValue (st : Model) (playerIndex offset startBit length : Nat) (value : Int) :
    Bool × Model :=
  if !st.mem.attached then (false, st)
  else
    match resolvePlayerTableBase st with
    | (none, st1) => (false, st1)
    | (some base, st1) =>
      let maxVal : Int := (2 : Int) ^ length - 1
      let valueNat : Nat := (max 0 (min maxVal value)).toNat
      let addr := base + playerIndex * PLAYER_STRIDE + offset
      let bytesNeeded := (startBit + length + 7) / 8
      match readBytes st1.mem addr bytesNeeded with
      | none => (false, st1)
      | some data =>
        let current := fromBytesLE data
        let mask := ((1 <<< length) - 1) <<< startBit
        let current := (current ^^^ (current &&& mask)) ||| ((valueNat <<< startBit) &&& mask)
        match writeBytes st1.mem addr (toBytesLE bytesNeeded current) with
        | none => (false, st1)
        | some m2 => (true, { st1 with mem := m2 })

/-! ### Team labels, deduplication and the player scan
(source lines 1875-1928 and 2132-2186) -/

/-- `PlayerDataModel._format_historic_year` (source lines 1891-1898):
`val` maps to the zero-padded two-digit years of `1899+val` and
`1899+val+1`, separated by `-` (code unit 45). -/
def formatHistoricYear (val : Nat) : PyStr :=
  if val = 0 then []
  else
    let startYear := 1899 + val
    let endYear := startYear + 1
    [48 + startYear % 100 / 10, 48 + startYear % 100 % 10, 45,
     48 + endYear % 100 / 10, 48 + endYear % 100 % 10]

/-- `PlayerDataModel._compose_team_name_from_ptr` (source lines 1900-1928).
`GameMemory` (source lines 1069-1245) defines `read_bytes`, `read_uint32`,
`read_uint64` and `read_wstring` but no `read_uint16`, and `self.mem` is
always a plain `GameMemory`, so the year read
`self.mem.read_uint16(team_ptr + TEAM_YEAR_OFFSET)` at line 1920 raises
`AttributeError` on every call; the surrounding `except` forces
`year_val = 0`, making the year-appending branch below dead code. -/
def composeTeamNameFromPtr (st : Model) (teamPtr : Nat) : PyStr :=
  let baseName :=
    match readWString st.mem (teamPtr + OFF_TEAM_NAME) TEAM_NAME_LENGTH with
    | some s => stripUnits s
    | none => []
  let yearVal : Nat := 0
  let name :=
    if 0 < yearVal then
      let yearStr := formatHistoricYear yearVal
      if yearStr.isEmpty then baseName else baseName ++ [32] ++ yearStr
    else baseName
  if isPrintableAsciiBar name then name else UNKNOWN_UNITS

/-- `PlayerDataModel._dedupe_team_names` (source lines 1875-1889): append
`" [idx]"` to every display name that occurs more than once. -/
def dedupeTeamNames (pairs : List (Nat × PyStr)) : List (Nat × PyStr) :=
  pairs.map fun p =>
    if 1 < pairs.countP (fun q => q.2 = p.2) then
      (p.1, p.2 ++ [32, 91] ++ natUnits p.1 ++ [93])
    else p

/-- One scanned player record (`Player`, source lines 1246-1264). -/
structure Player where
  index : Nat
  firstName : PyStr
  lastName : PyStr
  team : PyStr
  faceId : Nat
deriving DecidableEq

/-- One iteration of the `_scan_all_players` loop (source lines 2150-2175):
`none` when the slot is skipped (unreadable or blank). -/
def scanPlayerSlot (st : Model) (tableBase i : Nat) : Option Player :=
  let pAddr := tableBase + i * PLAYER_STRIDE
  match readWString st.mem (pAddr + OFF_LAST_NAME) NAME_MAX_CHARS,
        readWString st.mem (pAddr + OFF_FIRST_NAME) NAME_MAX_CHARS,
        readUInt32 st.mem (pAddr + OFF_FACE_ID) with
  | some ln, some fn, some face =>
    let lastName := stripUnits ln
    let firstName := stripUnits fn
    if firstName.isEmpty && lastName.isEmpty then none
    else
      let teamName :=
        match readUInt64 st.mem (pAddr + OFF_TEAM_PTR) with
        | some tp => if tp = 0 then FREE_AGENTS_UNITS else composeTeamNameFromPtr st tp
        | none => UNKNOWN_UNITS
      some ⟨i, firstName, lastName, teamName, face⟩
  | _, _, _ => none

/-- The accepted records of the `_scan_all_players` loop, before the final
sanity heuristic. -/
def scanPlayersLoop (st : Model) (tableBase maxScan : Nat) : List Player :=
  (List.range maxScan).filterMap (scanPlayerSlot st tableBase)

/-- Characters the `_scan_all_players` sanity heuristic accepts in names:
ASCII letters, space, hyphen and apostrophe (source line 2178). -/
def allowedNameUnit (c : Nat) : Bool :=
  (65 ≤ c && c ≤ 90) || (97 ≤ c && c ≤ 122) || c = 32 || c = 45 || c = 39

/-- Whether one record counts as junk for the heuristic: any character of
its concatenated first and last name outside the allowed set. -/
def playerHasJunk (p : Player) : Bool :=
  (p.firstName ++ p.lastName).any fun c => !allowedNameUnit c

/-- `PlayerDataModel._scan_all_players(max_scan)` (source lines 2132-2186):
scan the loop, then discard everything when junk records are the strict
majority (`junk > len(players) * 0.5`). -/
def scanAllPlayers (st : Model) (maxScan : Nat) : List Player × Model :=
  if !st.mem.attached then ([], st)
  else
    match resolvePlayerTableBase st with
    | (none, st1) => ([], st1)
    | (some tableBase, st1) =>
      let players := scanPlayersLoop st1 tableBase maxScan
      if players.isEmpty then (players, st1)
      else if players.length < 2 * players.countP playerHasJunk then ([], st1)
      else (players, st1)

/-- Spec-side character-level junk count over a scan result: decoded name
characters outside the allowed baseline set. -/
def junkCharCount (ps : List Player) : Nat :=
  (ps.map fun p => (p.firstName ++ p.lastName).countP fun c => !allowedNameUnit c).sum

/-- Spec-side total count of decoded name characters over a scan result. -/
def totalCharCount (ps : List Player) : Nat :=
  (ps.map fun p => (p.firstName ++ p.lastName).length).sum

/-! ### `offsets_reader.restructure` (offsets_reader.py lines 170-235)

Python strings in the offsets dictionaries are also modelled as code-unit
lists.  `dict`s preserve insertion order, so a dictionary is an association
list with distinct keys; `restructure` never relies on the distinctness. -/

/-- One field dictionary of a category list, restricted to the keys
`restructure` reads.  `offset` is `none` when the key is missing. -/
structure FieldDict where
  offset : Option PyStr
  startBit : Option Int
  length : Option Int
  name : Option PyStr
deriving DecidableEq

/-- The simplified entry `restructure` emits for one field. -/
structure FieldEntry where
  name : Option PyStr
  length : Option Int
  startBit : Int
deriving DecidableEq

/-- A value of the top-level offsets dictionary: a category list of field
dictionaries, or any other JSON value (opaque, copied through). -/
inductive PyVal where
  | vlist (fields : List FieldDict)
  | vother (tag : Nat)
deriving DecidableEq

/-- A value of the restructured dictionary. -/
inductive RVal where
  | keep (v : PyVal)
  | catmap (m : List (PyStr × List FieldEntry))
deriving DecidableEq

/-- `field.get("offset")` followed by the `if not offset_hex` falsy test:
`none` when the key is missing or the string is empty. -/
def truthyOffset : Option PyStr → Option PyStr
  | none => none
  | some s => if s.isEmpty then none else some s

/-- The simplified entry built from one field (`name`, `length`,
`startBit` defaulted to 0). -/
def mkEntry (f : FieldDict) : FieldEntry :=
  ⟨f.name, f.length, f.startBit.getD 0⟩

/-- `cat_map.setdefault(offset_hex, []).append(entry)`: append under an
existing key, else add the key at the end. -/
def insertEntry (m : List (PyStr × List FieldEntry)) (k : PyStr) (e : FieldEntry) :
    List (PyStr × List FieldEntry) :=
  match m with
  | [] => [(k, [e])]
  | (k', es) :: rest =>
    if k' = k then (k', es ++ [e]) :: rest else (k', es) :: insertEntry rest k e

/-- The inner loop of `restructure` over one category list. -/
def categoryMap (fields : List FieldDict) : List (PyStr × List FieldEntry) :=
  fields.foldl
    (fun acc f =>
      match truthyOffset f.offset with
      | none => acc
      | some k => insertEntry acc k (mkEntry f))
    []

/-- `key.lower()` restricted to ASCII letters. -/
def lowerUnits (s : PyStr) : PyStr :=
  s.map fun c => if 65 ≤ c ∧ c ≤ 90 then c + 32 else c

/-- The code units of `"base"`. -/
def BASE_KEY_UNITS : PyStr := [98, 97, 115, 101]

/-- `restructure(offsets)` (offsets_reader.py lines 170-235). -/
def restructure (offsets : List (PyStr × PyVal)) : List (PyStr × RVal) :=
  offsets.map fun p =>
    if lowerUnits p.1 = BASE_KEY_UNITS then (p.1, RVal.keep p.2)
    else
      match p.2 with
      | PyVal.vlist fields => (p.1, RVal.catmap (categoryMap fields))
      | v => (p.1, RVal.keep v)

/-- Spec-side category lookup: the simplified entries of the fields whose
truthy offset equals `o`, in original list order, or absent when no field
carries that offset. -/
def specCategoryLookup (fields : List FieldDict) (o : PyStr) : Option (List FieldEntry) :=
  let sel := (fields.filter fun f => truthyOffset f.offset = some o).map mkEntry
  if sel.isEmpty then none else some sel

/-- A category list exercising grouping and falsy-offset dropping: two
fields share offset `"0x39B"`, one field lacks the offset key, one has an
empty offset string. -/
def c9Fields : List FieldDict :=
  [⟨some [48, 120, 51, 57, 66], none, some 8, some [80, 97]⟩,
   ⟨some [48, 120, 51, 57, 66], some 4, some 8, some [66, 99]⟩,
   ⟨none, some 0, some 8, some [88]⟩,
   ⟨some [], some 0, some 8, some [89]⟩]

/-- A two-key offsets dictionary: `"Base"` (preserved) and `"Attr"` (a
category list). -/
def c9Offsets : List (PyStr × PyVal) :=
  [([66, 97, 115, 101], PyVal.vother 7),
   ([65, 116, 116, 114], PyVal.vlist c9Fields)]

/-! ### Concrete memories used by counterexamples and witnesses -/

/-- Foreign memory refuting the team-resolver fallback: both chain reads at
`module_base + rva` yield the pointer `0x1000`, every address below
`0x100000` holds zero (so every candidate base decodes an empty slot-0 name
and fails validation), and everything else holds the byte pattern of the
UTF-16 letter `A` (so any static fallback of the form `module_base + even
constant` would validate). -/
def ramTeamNoFallback (a : Nat) : Nat :=
  if 0x47E39430 ≤ a ∧ a < 0x47E39438 then (if a = 0x47E39431 then 0x10 else 0)
  else if 0x47DFFAC0 ≤ a ∧ a < 0x47DFFAC8 then (if a = 0x47DFFAC1 then 0x10 else 0)
  else if a < 0x100000 then 0
  else if a % 2 = 0 then 65 else 0

/-- Model state over `ramTeamNoFallback`, attached at module base
`0x40000000`, everything readable, caches empty. -/
def stTeamNoFallback : Model :=
  ⟨⟨true, 0x40000000, fun _ => true, fun _ => false, ramTeamNoFallback⟩, none, none⟩

/-- Foreign memory in which the first two player chains dereference to
bases with blank slot-0 names and the third chain (the static RVA entry)
dereferences to `0x2000`, where the last name decodes to `"Ed"`. -/
def ramPlayerThirdChain (a : Nat) : Nat :=
  if 0x47E39430 ≤ a ∧ a < 0x47E39438 then (if a = 0x47E39431 then 0x10 else 0)
  else if 0x46E14E48 ≤ a ∧ a < 0x46E14E50 then (if a = 0x46E14E49 then 0x10 else 0)
  else if 0x47E52998 ≤ a ∧ a < 0x47E529A0 then (if a = 0x47E52999 then 0x20 else 0)
  else if a = 0x2000 then 69
  else if a = 0x2002 then 100
  else 0

/-- Model state over `ramPlayerThirdChain`. -/
def stPlayerThirdChain : Model :=
  ⟨⟨true, 0x40000000, fun _ => true, fun _ => false, ramPlayerThirdChain⟩, none, none⟩

/-- Byte contents of a three-record player table at base `0x1000`: first
names `"Bob1"`, `"Tom1"`, `"Alan"` (UTF-16LE), all other fields zero. -/
def scanJunkTable : List (Nat × Nat) :=
  [(0x1028, 66), (0x102A, 111), (0x102C, 98), (0x102E, 49),
   (0x1470, 84), (0x1472, 111), (0x1474, 109), (0x1476, 49),
   (0x18B8, 65), (0x18BA, 108), (0x18BC, 97), (0x18BE, 110)]

/-- Foreign memory for the scan-heuristic counterexample. -/
def ramScanJunk (a : Nat) : Nat := (scanJunkTable.lookup a).getD 0

/-- Model state over `ramScanJunk` with the player-table base already
resolved (cached) at `0x1000`. -/
def stScanJunk : Model :=
  ⟨⟨true, 0, fun _ => true, fun _ => false, ramScanJunk⟩, some 0x1000, none⟩

/-- Group-scan output on which the dedupe uniqueness claim fails: slots 1
and 2 are both named `"Ab"`, slot 3 is named `"Ab [1]"`. -/
def dedupeClashPairs : List (Nat × PyStr) :=
  [(1, [65, 98]), (2, [65, 98]), (3, [65, 98, 32, 91, 49, 93])]

/-- A fully accessible zeroed memory with the player-table base cached at
`0x1000`, for concrete field-accessor instances. -/
def stFieldDemo : Model :=
  ⟨⟨true, 0, fun _ => true, fun _ => true, fun _ => 0⟩, some 0x1000, none⟩

/-- Spec-side composition of a group label, following the spec's words:
read the base name; when the era bitfield is non-zero, append the
two-digit start/end year string with `start = era_value + 1899` (the fixed
epoch) and `end = start + 1`; return the sentinel label when the composed
text fails the printability bar. -/
def specGroupLabel (st : Model) (teamPtr : Nat) : PyStr :=
  let base :=
    match readWString st.mem (teamPtr + OFF_TEAM_NAME) TEAM_NAME_LENGTH with
    | some s => stripUnits s
    | none => []
  let era :=
    match (readBytes st.mem (teamPtr + TEAM_YEAR_OFFSET) 2).map fromBytesLE with
    | some w => (w >>> 3) &&& 0x7F
    | none => 0
  let label :=
    if 0 < era then
      base ++ [32] ++
        [48 + (era + 1899) % 100 / 10, 48 + (era + 1899) % 100 % 10, 45,
         48 + (era + 1899 + 1) % 100 / 10, 48 + (era + 1899 + 1) % 100 % 10]
    else base
  if isPrintableAsciiBar label then label else UNKNOWN_UNITS

/-- Spec side of the program's actual label composition: the stripped base
name passed through the printability bar, with no year suffix ever
appended. -/
def specBaseOnlyGroupLabel (st : Model) (teamPtr : Nat) : PyStr :=
  let base :=
    match readWString st.mem (teamPtr + OFF_TEAM_NAME) TEAM_NAME_LENGTH with
    | some s => stripUnits s
    | none => []
  if isPrintableAsciiBar base then base else UNKNOWN_UNITS

/-- Memory holding one team record at `0x3000`: name `"Ed"` (UTF-16LE) at
offset `+0x2D4` and year halfword `8` (era bits `(8 >> 3) & 0x7F = 1`) at
offset `+0x161A`. -/
def ramEraDemo (a : Nat) : Nat :=
  if a = 0x32D4 then 69
  else if a = 0x32D6 then 100
  else if a = 0x461A then 8
  else 0

/-- Model state over `ramEraDemo`, attached, everything readable. -/
def stEraDemo : Model :=
  ⟨⟨true, 0, fun _ => true, fun _ => false, ramEraDemo⟩, none, none⟩

/-! ## Theorems -/

/-! ### Rounding and codec lemmas -/

lemma scale_not_direct : (StorageMode.scale = StorageMode.direct) = False := by
  simp

lemma le_pyRound {q : ℚ} {a : Int} (ha : (a : ℚ) ≤ q) : a ≤ pyRound q := by
  have hf : a ≤ ⌊q⌋ := Int.le_floor.mpr ha
  simp only [pyRound]
  split_ifs <;> omega

lemma pyRound_le {q : ℚ} {b : Int} (hb : q ≤ (b : ℚ)) : pyRound q ≤ b := by
  have hfb : ⌊q⌋ ≤ b := by
    have h := Int.floor_le_floor hb
    simpa using h
  have hfl : (⌊q⌋ : ℚ) ≤ q := Int.floor_le q
  have hlt : ∀ h1 : ¬(q - ⌊q⌋ < 1/2), ⌊q⌋ < b := by
    intro h1
    have h2 : (1 : ℚ)/2 ≤ q - ⌊q⌋ := not_lt.mp h1
    have h3 : ((⌊q⌋ : Int) : ℚ) < (b : ℚ) := by linarith
    exact_mod_cast h3
  simp only [pyRound]
  split_ifs with h1 h2 h3
  · exact hfb
  · have := hlt h1; omega
  · exact hfb
  · have := hlt h1; omega

lemma abs_pyRound_sub (q : ℚ) : |(pyRound q : ℚ) - q| ≤ 1/2 := by
  have h0 : (⌊q⌋ : ℚ) ≤ q := Int.floor_le q
  have h1 : q < ⌊q⌋ + 1 := Int.lt_floor_add_one q
  simp only [pyRound]
  split_ifs with ha hb hc <;> rw [abs_le] <;> constructor <;> push_cast <;> linarith

lemma pyRound_eq_round {q : ℚ} (h : q - ⌊q⌋ ≠ 1/2) : pyRound q = round q := by
  have h0 : (⌊q⌋ : ℚ) ≤ q := Int.floor_le q
  have h1 : q < ⌊q⌋ + 1 := Int.lt_floor_add_one q
  rw [round_eq]
  simp only [pyRound]
  split_ifs with ha hb hc
  · refine (Int.floor_eq_iff.mpr ⟨by linarith, by linarith⟩).symm
  · have h2 : (1 : ℚ)/2 ≤ q - ⌊q⌋ := not_lt.mp ha
    refine (Int.floor_eq_iff.mpr ⟨by push_cast; linarith, by push_cast; linarith⟩).symm
  · exact absurd (le_antisymm (not_lt.mp hb) (not_lt.mp ha)) h
  · exact absurd (le_antisymm (not_lt.mp hb) (not_lt.mp ha)) h

lemma pyRound_eq_round_of_no_half {v : ℚ}
    (h : ∀ k : Int, 2 * v ≠ ((2 * k + 1 : Int) : ℚ)) : pyRound v = round v := by
  apply pyRound_eq_round
  intro hfr
  apply h ⌊v⌋
  push_cast
  linarith

lemma odd_two_pow_sub_one {t : Nat} (ht : 1 ≤ t) : ¬ (2 : Int) ∣ (2 ^ t - 1) := by
  intro hdvd
  have h2 : (2 : Int) ∣ 2 ^ t := dvd_pow_self 2 (by omega)
  omega

lemma two_le_two_pow_toNat {length : Int} (h : 1 ≤ length) :
    (2 : Int) ≤ 2 ^ length.toNat := by
  have ht : 1 ≤ length.toNat := by omega
  calc (2 : Int) = 2 ^ 1 := by norm_num
  _ ≤ 2 ^ length.toNat := pow_le_pow_right₀ (by norm_num) ht

lemma decode_scale_eq (raw length : Int) (h : 1 ≤ length) :
    convert_raw_to_rating raw length =
      pyRound (specClampRating (specScaledRating raw length)) := by
  have h0 : ¬(length < 0) := by omega
  have hm2 : (2 : Int) ≤ 2 ^ length.toNat := two_le_two_pow_toNat h
  have hmle : ¬((2 : Int) ^ length.toNat - 1 ≤ 0) := by omega
  simp only [convert_raw_to_rating, specClampRating, specScaledRating,
    RATING_MIN, RATING_MAX_TRUE, ATTR_STORAGE_MODE, scale_not_direct, false_and, if_false]
  rw [if_neg h0, if_neg hmle]
  norm_num

lemma decode_tendency_eq (raw length : Int) (h : 1 ≤ length) :
    convert_tendency_raw_to_rating raw length =
      pyRound (specClampTendency (specScaledTendency raw length)) := by
  have h0 : ¬(length < 0) := by omega
  have hm2 : (2 : Int) ≤ 2 ^ length.toNat := two_le_two_pow_toNat h
  have hmle : ¬((2 : Int) ^ length.toNat - 1 ≤ 0) := by omega
  simp only [convert_tendency_raw_to_rating, specClampTendency, specScaledTendency]
  rw [if_neg h0, if_neg hmle]

lemma clamp01_eq {x : ℚ} (h0 : 0 ≤ x) (h1 : x ≤ 1) :
    (if x < 0 then (0 : ℚ) else if 1 < x then 1 else x) = x := by
  rw [if_neg (not_lt.mpr h0), if_neg (not_lt.mpr h1)]

lemma clampToMax_eq {e m : Int} (h0 : 0 ≤ e) (h1 : e ≤ m) :
    (if e < 0 then (0 : Int) else if m < e then m else e) = e := by
  rw [if_neg (not_lt.mpr h0), if_neg (not_lt.mpr h1)]

lemma specClampRating_bounds (q : ℚ) :
    25 ≤ specClampRating q ∧ specClampRating q ≤ 110 := by
  unfold specClampRating
  split_ifs <;> constructor <;> linarith

lemma ratingClampFold (r : ℚ) :
    (if r < 25 then (25 : ℚ) else if 110 < r then 110 else r) = specClampRating r := by
  unfold specClampRating
  rfl

lemma ratingMinCast : ((25 : Int) : ℚ) = 25 := by norm_num

lemma ratingMaxCast : ((110 : Int) : ℚ) = 110 := by norm_num

lemma ratingDenomFold : ((110 : ℚ) - 25) = 85 := by norm_num

lemma encode_scale_eq (r : ℚ) (length : Int) (h : 1 ≤ length) :
    convert_rating_to_raw r length =
      pyRound ((specClampRating r - 25) / 85 * (((2 : Int) ^ length.toNat - 1 : Int) : ℚ)) := by
  have h0 : ¬(length < 0) := by omega
  have hm2 : (2 : Int) ≤ 2 ^ length.toNat := two_le_two_pow_toNat h
  have hmle : ¬((2 : Int) ^ length.toNat - 1 ≤ 0) := by omega
  have hmq : (0 : ℚ) ≤ (((2 : Int) ^ length.toNat - 1 : Int) : ℚ) := by
    exact_mod_cast (by omega : (0 : Int) ≤ 2 ^ length.toNat - 1)
  obtain ⟨hrc0, hrc1⟩ := specClampRating_bounds r
  have hF0 : (0 : ℚ) ≤ (specClampRating r - 25) / 85 := by
    apply div_nonneg (by linarith) (by norm_num)
  have hF1 : (specClampRating r - 25) / 85 ≤ 1 := by
    rw [div_le_one (by norm_num)]
    linarith
  have hFm0 : (0 : ℚ) ≤ (specClampRating r - 25) / 85 * (((2 : Int) ^ length.toNat - 1 : Int) : ℚ) :=
    mul_nonneg hF0 hmq
  have hFm1 : (specClampRating r - 25) / 85 * (((2 : Int) ^ length.toNat - 1 : Int) : ℚ) ≤
      (((2 : Int) ^ length.toNat - 1 : Int) : ℚ) := by
    calc (specClampRating r - 25) / 85 * (((2 : Int) ^ length.toNat - 1 : Int) : ℚ)
        ≤ 1 * (((2 : Int) ^ length.toNat - 1 : Int) : ℚ) := mul_le_mul_of_nonneg_right hF1 hmq
    _ = (((2 : Int) ^ length.toNat - 1 : Int) : ℚ) := one_mul _
  have he0 : (0 : Int) ≤
      pyRound ((specClampRating r - 25) / 85 * (((2 : Int) ^ length.toNat - 1 : Int) : ℚ)) :=
    le_pyRound (by exact_mod_cast hFm0)
  have he1 : pyRound ((specClampRating r - 25) / 85 * (((2 : Int) ^ length.toNat - 1 : Int) : ℚ)) ≤
      2 ^ length.toNat - 1 :=
    pyRound_le hFm1
  simp only [convert_rating_to_raw, RATING_MIN, RATING_MAX_TRUE, ATTR_STORAGE_MODE,
    scale_not_direct, false_and, if_false]
  rw [if_neg h0, if_neg hmle]
  simp only [ratingMinCast, ratingMaxCast, ratingDenomFold, ratingClampFold]
  rw [clamp01_eq hF0 hF1]
  rw [clampToMax_eq he0 he1]

lemma specClampRating_intCast (r : Int) :
    specClampRating ((r : Int) : ℚ) = ((clampRating r : Int) : ℚ) := by
  unfold specClampRating clampRating
  by_cases h1 : r < 25
  · rw [if_pos (by exact_mod_cast h1), if_pos h1]
    norm_num
  · rw [if_neg (by exact_mod_cast h1), if_neg h1]
    by_cases h2 : (110 : Int) < r
    · rw [if_pos (by exact_mod_cast h2), if_pos h2]
      norm_num
    · rw [if_neg (by exact_mod_cast h2), if_neg h2]

/-- C10: both decoders are total and range-bounded: for every integer raw
value and every integer bit length (zero and negative included),
`convert_raw_to_rating` lands in `[25, 110]` and
`convert_tendency_raw_to_rating` lands in `[0, 100]`.  (In the embedding
the raising paths of the source are the caught-exception guards, so
totality holds by construction.) -/
theorem c10_decoder_total_bounds (raw length : Int) :
    (25 ≤ convert_raw_to_rating raw length ∧ convert_raw_to_rating raw length ≤ 110) ∧
    (0 ≤ convert_tendency_raw_to_rating raw length ∧
      convert_tendency_raw_to_rating raw length ≤ 100) := by
  constructor
  · simp only [convert_raw_to_rating, RATING_MIN, RATING_MAX_TRUE, ATTR_STORAGE_MODE,
      scale_not_direct, false_and, if_false]
    split_ifs with h1 h2 h3 h4
    · omega
    · omega
    · exact ⟨le_pyRound (by norm_num), pyRound_le (by norm_num)⟩
    · exact ⟨le_pyRound (by norm_num), pyRound_le (by norm_num)⟩
    · refine ⟨le_pyRound ?_, pyRound_le ?_⟩
      · push_cast
        push_cast at h3
        linarith [not_lt.mp h3]
      · push_cast
        push_cast at h4
        linarith [not_lt.mp h4]
  · simp only [convert_tendency_raw_to_rating]
    split_ifs with h1 h2 h3 h4
    · omega
    · omega
    · exact ⟨le_pyRound (by norm_num), pyRound_le (by norm_num)⟩
    · exact ⟨le_pyRound (by norm_num), pyRound_le (by norm_num)⟩
    · refine ⟨le_pyRound ?_, pyRound_le ?_⟩
      · push_cast at h3 ⊢
        linarith [not_lt.mp h3]
      · push_cast at h4 ⊢
        linarith [not_lt.mp h4]

/-- Over the exact-value semantics (no binary64 rounding) both decoders
agree with round-half-up of the clamped exact scaled value: the exact
scaled value can never have fractional part one half, because the
denominator `2^width - 1` is odd.  The halves the program does hit (see
`c7_counterexample`) are artefacts of the double rounding of each float
operation, not of the exact values. -/
lemma exact_semantics_half_up (raw length : Int) (h : 1 ≤ length) :
    convert_raw_to_rating raw length = round (specClampRating (specScaledRating raw length)) ∧
    convert_tendency_raw_to_rating raw length =
      round (specClampTendency (specScaledTendency raw length)) := by
  have ht : 1 ≤ length.toNat := by omega
  have hm2 : (2 : Int) ≤ 2 ^ length.toNat := two_le_two_pow_toNat h
  have hmodd : ¬ (2 : Int) ∣ (2 ^ length.toNat - 1) := odd_two_pow_sub_one ht
  have hmq : (((2 : Int) ^ length.toNat - 1 : Int) : ℚ) ≠ 0 :=
    Int.cast_ne_zero.mpr (by omega)
  have hmq2 : ((2 : ℚ) ^ length.toNat - 1) ≠ 0 := by
    have h2q : (2 : ℚ) ≤ 2 ^ length.toNat := by exact_mod_cast hm2
    linarith
  constructor
  · rw [decode_scale_eq raw length h]
    apply pyRound_eq_round_of_no_half
    intro k hk
    unfold specClampRating at hk
    split_ifs at hk
    · have h50 : (50 : Int) = 2 * k + 1 := by exact_mod_cast hk
      omega
    · have h220 : (220 : Int) = 2 * k + 1 := by exact_mod_cast hk
      omega
    · unfold specScaledRating at hk
      have expand : (2 : ℚ) * (25 + (raw : ℚ) / (((2 : Int) ^ length.toNat - 1 : Int) : ℚ) * (110 - 25)) *
          (((2 : Int) ^ length.toNat - 1 : Int) : ℚ) =
          50 * (((2 : Int) ^ length.toNat - 1 : Int) : ℚ) + 170 * (raw : ℚ) := by
        field_simp [hmq2]
        ring
      have hq : 50 * (((2 : Int) ^ length.toNat - 1 : Int) : ℚ) + 170 * (raw : ℚ) =
          ((2 * k + 1 : Int) : ℚ) * (((2 : Int) ^ length.toNat - 1 : Int) : ℚ) := by
        rw [← expand, hk]
      have hZ : 50 * ((2 : Int) ^ length.toNat - 1) + 170 * raw =
          (2 * k + 1) * ((2 : Int) ^ length.toNat - 1) := by exact_mod_cast hq
      have hdvd : (2 : Int) ∣ (2 * k + 1) * ((2 : Int) ^ length.toNat - 1) := by
        rw [← hZ]
        exact ⟨25 * ((2 : Int) ^ length.toNat - 1) + 85 * raw, by ring⟩
      rcases (Int.prime_two.dvd_mul).mp hdvd with h' | h'
      · omega
      · exact hmodd h'
  · rw [decode_tendency_eq raw length h]
    apply pyRound_eq_round_of_no_half
    intro k hk
    unfold specClampTendency at hk
    split_ifs at hk
    · have h0 : (0 : Int) = 2 * k + 1 := by exact_mod_cast hk
      omega
    · have h200 : (200 : Int) = 2 * k + 1 := by exact_mod_cast hk
      omega
    · unfold specScaledTendency at hk
      have expand : (2 : ℚ) * ((raw : ℚ) / (((2 : Int) ^ length.toNat - 1 : Int) : ℚ) * 100) *
          (((2 : Int) ^ length.toNat - 1 : Int) : ℚ) = 200 * (raw : ℚ) := by
        field_simp [hmq2]
        ring
      have hq : (200 : ℚ) * (raw : ℚ) =
          ((2 * k + 1 : Int) : ℚ) * (((2 : Int) ^ length.toNat - 1 : Int) : ℚ) := by
        rw [← expand, hk]
      have hZ : (200 : Int) * raw = (2 * k + 1) * ((2 : Int) ^ length.toNat - 1) := by
        exact_mod_cast hq
      have hdvd : (2 : Int) ∣ (2 * k + 1) * ((2 : Int) ^ length.toNat - 1) := by
        rw [← hZ]
        exact ⟨100 * raw, by ring⟩
      rcases (Int.prime_two.dvd_mul).mp hdvd with h' | h'
      · omega
      · exact hmodd h'

/-! ### Binary64 rounding of the decoders' float chains -/

lemma pyRound_eq_floor {q : ℚ} {f : ℤ} (hf : ⌊q⌋ = f) (h : q - f < 1/2) :
    pyRound q = f := by
  simp only [pyRound, hf]
  rw [if_pos h]

lemma pyRound_eq_up {q : ℚ} {f : ℤ} (hf : ⌊q⌋ = f) (h : 1/2 < q - f) :
    pyRound q = f + 1 := by
  simp only [pyRound, hf]
  rw [if_neg (by linarith), if_pos h]

lemma pyRound_eq_tie_even {q : ℚ} {f : ℤ} (hf : ⌊q⌋ = f) (h : q - f = 1/2)
    (he : f % 2 = 0) : pyRound q = f := by
  simp only [pyRound, hf]
  rw [if_neg (by linarith), if_neg (by linarith), if_pos he]

lemma log2_eq_of_bounds {q : ℚ} {e : ℤ} (hq : 0 < q)
    (h1 : 2 ^ e ≤ q) (h2 : q < 2 ^ (e + 1)) : Int.log 2 q = e := by
  have hb : 1 < (2 : ℕ) := by norm_num
  have hle : e ≤ Int.log 2 q := by
    rw [← Int.zpow_le_iff_le_log hb hq]
    exact_mod_cast h1
  have hlt : Int.log 2 q < e + 1 := by
    rw [← Int.lt_zpow_iff_log_lt hb hq]
    exact_mod_cast h2
  omega

lemma roundB64_eq {q : ℚ} {e n : ℤ} (hq : 0 < q)
    (h1 : 2 ^ e ≤ q) (h2 : q < 2 ^ (e + 1))
    (h3 : pyRound (q / 2 ^ (e - 52)) = n) :
    roundB64 q = (n : ℚ) * 2 ^ (e - 52) := by
  unfold roundB64
  rw [if_neg (by positivity), abs_of_pos hq, log2_eq_of_bounds hq h1 h2]
  show (pyRound (q / 2 ^ (e - 52)) : ℚ) * 2 ^ (e - 52) = _
  rw [h3]

lemma roundB64_zero : roundB64 0 = 0 := by
  simp [roundB64]

lemma roundB64_25 : roundB64 (25 : ℚ) = 25 := by
  have h3 : pyRound ((25 : ℚ) / 2 ^ ((4 : ℤ) - 52)) = 7036874417766400 := by
    rw [show (25 : ℚ) / 2 ^ ((4 : ℤ) - 52) = 7036874417766400 from by norm_num]
    apply pyRound_eq_floor (f := 7036874417766400)
    · rw [Int.floor_eq_iff]
      constructor <;> norm_num
    · norm_num
  have h := roundB64_eq (e := 4) (n := 7036874417766400)
    (by positivity) (by norm_num) (by norm_num) h3
  rw [h]
  norm_num

lemma b64RatingStep1 : roundB64 ((72024479334785 : ℚ) / 140737488355327) =
    (4609566677426273 : ℚ) / 9007199254740992 := by
  have h3 : pyRound ((72024479334785 : ℚ) / 140737488355327 / 2 ^ ((-1 : ℤ) - 52)) =
      4609566677426273 := by
    rw [show (72024479334785 : ℚ) / 140737488355327 / 2 ^ ((-1 : ℤ) - 52) =
        648738836587383431241631006720 / 140737488355327 from by norm_num]
    apply pyRound_eq_up (f := 4609566677426272)
    · rw [Int.floor_eq_iff]
      constructor <;> norm_num
    · norm_num
  have h := roundB64_eq (e := -1) (n := 4609566677426273)
    (by positivity) (by norm_num) (by norm_num) h3
  rw [h]
  norm_num

lemma b64RatingStep2 : roundB64 ((4609566677426273 : ℚ) / 9007199254740992 * 85) =
    (6122080743456769 : ℚ) / 140737488355328 := by
  have h3 : pyRound ((4609566677426273 : ℚ) / 9007199254740992 * 85 / 2 ^ ((5 : ℤ) - 52)) =
      6122080743456769 := by
    rw [show (4609566677426273 : ℚ) / 9007199254740992 * 85 / 2 ^ ((5 : ℤ) - 52) =
        391813167581233205 / 64 from by norm_num]
    apply pyRound_eq_up (f := 6122080743456768)
    · rw [Int.floor_eq_iff]
      constructor <;> norm_num
    · norm_num
  have h := roundB64_eq (e := 5) (n := 6122080743456769)
    (by positivity) (by norm_num) (by norm_num) h3
  rw [h]
  norm_num

lemma b64RatingStep3 : roundB64 ((25 : ℚ) + 6122080743456769 / 140737488355328) =
    137 / 2 := by
  have h3 : pyRound (((25 : ℚ) + 6122080743456769 / 140737488355328) / 2 ^ ((6 : ℤ) - 52)) =
      4820258976169984 := by
    rw [show ((25 : ℚ) + 6122080743456769 / 140737488355328) / 2 ^ ((6 : ℤ) - 52) =
        9640517952339969 / 2 from by norm_num]
    apply pyRound_eq_tie_even (f := 4820258976169984)
    · rw [Int.floor_eq_iff]
      constructor <;> norm_num
    · norm_num
    · norm_num
  have h := roundB64_eq (e := 6) (n := 4820258976169984)
    (by positivity) (by norm_num) (by norm_num) h3
  rw [h]
  norm_num

lemma b64TendStep1 : roundB64 ((96405179523399 : ℚ) / 140737488355327) =
    (6169931489497580 : ℚ) / 9007199254740992 := by
  have h3 : pyRound ((96405179523399 : ℚ) / 140737488355327 / 2 ^ ((-1 : ℤ) - 52)) =
      6169931489497580 := by
    rw [show (96405179523399 : ℚ) / 140737488355327 / 2 ^ ((-1 : ℤ) - 52) =
        868340661156331015129748471808 / 140737488355327 from by norm_num]
    apply pyRound_eq_up (f := 6169931489497579)
    · rw [Int.floor_eq_iff]
      constructor <;> norm_num
    · norm_num
  have h := roundB64_eq (e := -1) (n := 6169931489497580)
    (by positivity) (by norm_num) (by norm_num) h3
  rw [h]
  norm_num

lemma b64TendStep2 : roundB64 ((6169931489497580 : ℚ) / 9007199254740992 * 100) =
    137 / 2 := by
  have h3 : pyRound ((6169931489497580 : ℚ) / 9007199254740992 * 100 / 2 ^ ((6 : ℤ) - 52)) =
      4820258976169984 := by
    rw [show (6169931489497580 : ℚ) / 9007199254740992 * 100 / 2 ^ ((6 : ℤ) - 52) =
        154248287237439500 / 32 from by norm_num]
    apply pyRound_eq_floor (f := 4820258976169984)
    · rw [Int.floor_eq_iff]
      constructor <;> norm_num
    · norm_num
  have h := roundB64_eq (e := 6) (n := 4820258976169984)
    (by positivity) (by norm_num) (by norm_num) h3
  rw [h]
  norm_num

lemma floatScaledRating_cex : floatScaledRating 72024479334785 47 = 137 / 2 := by
  have ht : ((47 : Int).toNat) = 47 := rfl
  have harg : floatScaledRating 72024479334785 47 =
      roundB64 ((25 : ℚ) + roundB64 (roundB64 ((72024479334785 : ℚ) / 140737488355327) * 85)) := by
    unfold floatScaledRating
    simp only [ht]
    push_cast
    norm_num
  rw [harg, b64RatingStep1, b64RatingStep2, b64RatingStep3]

lemma floatScaledTendency_cex : floatScaledTendency 96405179523399 47 = 137 / 2 := by
  have ht : ((47 : Int).toNat) = 47 := rfl
  have harg : floatScaledTendency 96405179523399 47 =
      roundB64 (roundB64 ((96405179523399 : ℚ) / 140737488355327) * 100) := by
    unfold floatScaledTendency
    simp only [ht]
    push_cast
    norm_num
  rw [harg, b64TendStep1, b64TendStep2]

lemma floatScaledRating_zero (length : Int) : floatScaledRating 0 length = 25 := by
  unfold floatScaledRating
  rw [show ((0 : Int) : ℚ) = 0 from by norm_num, zero_div, roundB64_zero, zero_mul,
    roundB64_zero, add_zero, roundB64_25]

lemma floatScaledTendency_zero (length : Int) : floatScaledTendency 0 length = 0 := by
  unfold floatScaledTendency
  rw [show ((0 : Int) : ℚ) = 0 from by norm_num, zero_div, roundB64_zero, zero_mul,
    roundB64_zero]

lemma decode_float_scale_eq (raw length : Int) (h : 1 ≤ length) :
    convert_raw_to_rating_float raw length =
      pyRound (specClampRating (floatScaledRating raw length)) := by
  have h0 : ¬(length < 0) := by omega
  have hm2 : (2 : Int) ≤ 2 ^ length.toNat := two_le_two_pow_toNat h
  have hmle : ¬((2 : Int) ^ length.toNat - 1 ≤ 0) := by omega
  simp only [convert_raw_to_rating_float, specClampRating,
    RATING_MIN, RATING_MAX_TRUE, ATTR_STORAGE_MODE, scale_not_direct, false_and, if_false]
  rw [if_neg h0, if_neg hmle]
  norm_num

lemma decode_float_tendency_eq (raw length : Int) (h : 1 ≤ length) :
    convert_tendency_raw_to_rating_float raw length =
      pyRound (specClampTendency (floatScaledTendency raw length)) := by
  have h0 : ¬(length < 0) := by omega
  have hm2 : (2 : Int) ≤ 2 ^ length.toNat := two_le_two_pow_toNat h
  have hmle : ¬((2 : Int) ^ length.toNat - 1 ≤ 0) := by omega
  simp only [convert_tendency_raw_to_rating_float, specClampTendency]
  rw [if_neg h0, if_neg hmle]

/-- C7 counterexample: at bit width 47, raw 72024479334785, the rating
decoder's double chain evaluates to exactly `68.5` and the program (round
half to even) returns 68, while round-half-up of the clamped scaled value
— whether computed exactly or in doubles — is 69; the tendency decoder
diverges the same way at raw 96405179523399.  The program's rounding is
therefore not round-half-up. -/
theorem c7_counterexample :
    convert_raw_to_rating_float 72024479334785 47 = 68 ∧
    round (specClampRating (specScaledRating 72024479334785 47)) = 69 ∧
    round (specClampRating (floatScaledRating 72024479334785 47)) = 69 ∧
    convert_tendency_raw_to_rating_float 96405179523399 47 = 68 ∧
    round (specClampTendency (specScaledTendency 96405179523399 47)) = 69 := by
  have ht : ((47 : Int).toNat) = 47 := rfl
  have hclamp : specClampRating ((137 : ℚ) / 2) = 137 / 2 := by
    unfold specClampRating
    norm_num
  have hclampT : specClampTendency ((137 : ℚ) / 2) = 137 / 2 := by
    unfold specClampTendency
    norm_num
  have hround : round ((137 : ℚ) / 2) = 69 := by
    rw [round_eq, show (137 : ℚ) / 2 + 1 / 2 = 69 from by norm_num, Int.floor_eq_iff]
    constructor <;> norm_num
  have hpy : pyRound ((137 : ℚ) / 2) = 68 := by
    apply pyRound_eq_tie_even (f := 68)
    · rw [Int.floor_eq_iff]
      constructor <;> norm_num
    · norm_num
    · norm_num
  have hsv : specScaledRating 72024479334785 47 =
      25 + 72024479334785 / 140737488355327 * (110 - 25) := by
    unfold specScaledRating
    simp only [ht]
    push_cast
    norm_num
  have hsvT : specScaledTendency 96405179523399 47 =
      96405179523399 / 140737488355327 * 100 := by
    unfold specScaledTendency
    simp only [ht]
    push_cast
    norm_num
  refine ⟨?_, ?_, ?_, ?_, ?_⟩
  · rw [decode_float_scale_eq _ _ (by norm_num), floatScaledRating_cex, hclamp, hpy]
  · rw [hsv, show specClampRating (25 + (72024479334785 : ℚ) / 140737488355327 * (110 - 25)) =
        25 + 72024479334785 / 140737488355327 * (110 - 25) from by
      unfold specClampRating
      norm_num]
    rw [round_eq, Int.floor_eq_iff]
    constructor <;> norm_num
  · rw [floatScaledRating_cex, hclamp, hround]
  · rw [decode_float_tendency_eq _ _ (by norm_num), floatScaledTendency_cex, hclampT, hpy]
  · rw [hsvT, show specClampTendency ((96405179523399 : ℚ) / 140737488355327 * 100) =
        96405179523399 / 140737488355327 * 100 from by
      unfold specClampTendency
      norm_num]
    rw [round_eq, Int.floor_eq_iff]
    constructor <;> norm_num

/-- C7 amended: with the float arithmetic modelled at binary64 precision,
both decoders return Python's round-half-to-even of the clamped
double-precision scaled value; whenever that value does not have
fractional part exactly one half, this coincides with round-half-up
(Mathlib's `round`).  Exact halves do occur in the double chain (the
counterexample hits `68.5` at width 47), and there the program rounds to
the even neighbour instead of up. -/
theorem c7_banker_rounding_amended (raw length : Int) (h : 1 ≤ length) :
    convert_raw_to_rating_float raw length =
      pyRound (specClampRating (floatScaledRating raw length)) ∧
    convert_tendency_raw_to_rating_float raw length =
      pyRound (specClampTendency (floatScaledTendency raw length)) ∧
    (specClampRating (floatScaledRating raw length) -
        ⌊specClampRating (floatScaledRating raw length)⌋ ≠ 1/2 →
      convert_raw_to_rating_float raw length =
        round (specClampRating (floatScaledRating raw length))) ∧
    (specClampTendency (floatScaledTendency raw length) -
        ⌊specClampTendency (floatScaledTendency raw length)⌋ ≠ 1/2 →
      convert_tendency_raw_to_rating_float raw length =
        round (specClampTendency (floatScaledTendency raw length))) := by
  refine ⟨decode_float_scale_eq raw length h, decode_float_tendency_eq raw length h, ?_, ?_⟩
  · intro hy
    rw [decode_float_scale_eq raw length h]
    exact pyRound_eq_round hy
  · intro hz
    rw [decode_float_tendency_eq raw length h]
    exact pyRound_eq_round hz

/-- C7 witness: the amended theorem applied at raw 0, width 5, where the
double chain is exact (`25` resp. `0`) and has no half. -/
theorem c7_banker_rounding_amended_witness :
    (1 : Int) ≤ 5 ∧
    convert_raw_to_rating_float 0 5 =
      round (specClampRating (floatScaledRating 0 5)) ∧
    convert_tendency_raw_to_rating_float 0 5 =
      round (specClampTendency (floatScaledTendency 0 5)) :=
  ⟨by norm_num,
   (c7_banker_rounding_amended 0 5 (by norm_num)).2.2.1 (by
      rw [floatScaledRating_zero]
      rw [show specClampRating (25 : ℚ) = 25 from by unfold specClampRating; norm_num]
      rw [show ⌊(25 : ℚ)⌋ = 25 from by
        rw [Int.floor_eq_iff]
        constructor <;> norm_num]
      norm_num),
   (c7_banker_rounding_amended 0 5 (by norm_num)).2.2.2 (by
      rw [floatScaledTendency_zero]
      rw [show specClampTendency (0 : ℚ) = 0 from by unfold specClampTendency; norm_num]
      rw [show ⌊(0 : ℚ)⌋ = 0 from by
        rw [Int.floor_eq_iff]
        constructor <;> norm_num]
      norm_num)⟩

/-- C2 counterexample: at bit width 4 (inside the claimed range 1..16) and
rating 27 in the valid domain, the `scale`-mode round trip returns 25,
which differs from `clamp(27) = 27` by 2, outside the claimed ±1. -/
theorem c2_counterexample :
    convert_raw_to_rating (convert_rating_to_raw ((27 : Int) : ℚ) 4) 4 = 25 ∧
    ¬ |convert_raw_to_rating (convert_rating_to_raw ((27 : Int) : ℚ) 4) 4 - clampRating 27| ≤ 1 := by
  have h : convert_raw_to_rating (convert_rating_to_raw ((27 : Int) : ℚ) 4) 4 = 25 := by
    have h1 : convert_rating_to_raw ((27 : Int) : ℚ) 4 = 0 := by
      have ht : ((4 : Int).toNat) = 4 := rfl
      rw [convert_rating_to_raw]
      simp only [ht, pyRound, RATING_MIN, RATING_MAX_TRUE, ATTR_STORAGE_MODE]
      norm_num
    rw [h1]
    have ht : ((4 : Int).toNat) = 4 := rfl
    rw [convert_raw_to_rating]
    simp only [ht, pyRound, RATING_MIN, RATING_MAX_TRUE, ATTR_STORAGE_MODE]
    norm_num
  refine ⟨h, ?_⟩
  rw [h]
  norm_num [clampRating]

/-- C2 amended: for bit widths 5 through 16 (the claim said 1 through 16,
but widths 1-4 fail, see the counterexample) and every integer rating, the
`scale`-mode round trip lands within ±1 of the rating clamped to
`[25, 110]`. -/
theorem c2_scale_roundtrip_amended (length r : Int) (h5 : 5 ≤ length) (h16 : length ≤ 16) :
    |convert_raw_to_rating (convert_rating_to_raw ((r : Int) : ℚ) length) length -
      clampRating r| ≤ 1 := by
  have h1 : 1 ≤ length := by omega
  have ht5 : 5 ≤ length.toNat := by omega
  have hm31 : (31 : Int) ≤ 2 ^ length.toNat - 1 := by
    have hp : (2 : Int) ^ 5 ≤ 2 ^ length.toNat := pow_le_pow_right₀ (by norm_num) ht5
    norm_num at hp
    omega
  have hmq0 : (0 : ℚ) < (((2 : Int) ^ length.toNat - 1 : Int) : ℚ) := by
    exact_mod_cast (by omega : (0 : Int) < 2 ^ length.toNat - 1)
  have hmq31 : (31 : ℚ) ≤ (((2 : Int) ^ length.toNat - 1 : Int) : ℚ) := by
    exact_mod_cast hm31
  have hR : 25 ≤ clampRating r ∧ clampRating r ≤ 110 := by
    unfold clampRating
    split_ifs <;> omega
  rw [encode_scale_eq _ _ h1, decode_scale_eq _ _ h1]
  rw [specClampRating_intCast r]
  set mq : ℚ := (((2 : Int) ^ length.toNat - 1 : Int) : ℚ) with hmqdef
  set R : Int := clampRating r with hRdef
  set e : Int := pyRound (((R : ℚ) - 25) / 85 * mq) with hedef
  have hRq1 : (25 : ℚ) ≤ (R : ℚ) := by exact_mod_cast hR.1
  have hRq2 : (R : ℚ) ≤ 110 := by exact_mod_cast hR.2
  have habs1 : |(e : ℚ) - ((R : ℚ) - 25) / 85 * mq| ≤ 1/2 := abs_pyRound_sub _
  have he0 : (0 : Int) ≤ e := by
    rw [hedef]
    refine le_pyRound ?_
    push_cast
    apply mul_nonneg (div_nonneg (by linarith) (by norm_num)) (le_of_lt hmq0)
  have he1 : (e : ℚ) ≤ mq := by
    have : e ≤ ((2 : Int) ^ length.toNat - 1 : Int) := by
      rw [hedef]
      refine pyRound_le ?_
      calc ((R : ℚ) - 25) / 85 * mq ≤ 1 * mq := by
            apply mul_le_mul_of_nonneg_right ?_ (le_of_lt hmq0)
            rw [div_le_one (by norm_num)]
            linarith
      _ = mq := one_mul _
    rw [hmqdef]
    exact_mod_cast this
  -- the decode input is already inside [25, 110], so its clamp is a no-op
  have hv0 : (25 : ℚ) ≤ specScaledRating e length := by
    unfold specScaledRating
    rw [← hmqdef]
    have : (0 : ℚ) ≤ (e : ℚ) / mq * (110 - 25) := by
      apply mul_nonneg (div_nonneg (by exact_mod_cast he0) (le_of_lt hmq0)) (by norm_num)
    linarith
  have hv1 : specScaledRating e length ≤ 110 := by
    unfold specScaledRating
    rw [← hmqdef]
    have hfr : (e : ℚ) / mq ≤ 1 := by
      rw [div_le_one hmq0]
      exact he1
    have : (e : ℚ) / mq * (110 - 25) ≤ 1 * (110 - 25) := by
      apply mul_le_mul_of_nonneg_right hfr (by norm_num)
    linarith
  have hclampv : specClampRating (specScaledRating e length) = specScaledRating e length := by
    unfold specClampRating
    rw [if_neg (not_lt.mpr hv0), if_neg (not_lt.mpr hv1)]
  rw [hclampv]
  set d : Int := pyRound (specScaledRating e length) with hddef
  have habs2 : |(d : ℚ) - specScaledRating e length| ≤ 1/2 := abs_pyRound_sub _
  have key : specScaledRating e length - (R : ℚ) =
      ((e : ℚ) - ((R : ℚ) - 25) / 85 * mq) * (85 / mq) := by
    unfold specScaledRating
    rw [← hmqdef]
    field_simp
    ring
  have hmabs : |((e : ℚ) - ((R : ℚ) - 25) / 85 * mq) * (85 / mq)| ≤ (1/2) * (85/31) := by
    rw [abs_mul]
    have h85 : |((85 : ℚ) / mq)| = 85 / mq := abs_of_nonneg (by positivity)
    rw [h85]
    have hfrac : (85 : ℚ) / mq ≤ 85 / 31 := by
      apply div_le_div_of_nonneg_left (by norm_num) (by norm_num) hmq31
    have hnn : (0 : ℚ) ≤ |(e : ℚ) - ((R : ℚ) - 25) / 85 * mq| := abs_nonneg _
    calc |(e : ℚ) - ((R : ℚ) - 25) / 85 * mq| * (85 / mq)
        ≤ (1/2) * (85 / mq) := by
          apply mul_le_mul_of_nonneg_right habs1 (by positivity)
    _ ≤ (1/2) * (85/31) := by
          apply mul_le_mul_of_nonneg_left hfrac (by norm_num)
  have hfinal : |(d : ℚ) - (R : ℚ)| < 2 := by
    have htri : |(d : ℚ) - (R : ℚ)| ≤
        |(d : ℚ) - specScaledRating e length| + |specScaledRating e length - (R : ℚ)| :=
      abs_sub_le _ _ _
    rw [key] at htri
    calc |(d : ℚ) - (R : ℚ)| ≤ _ := htri
    _ ≤ 1/2 + (1/2) * (85/31) := by linarith [habs2, hmabs]
    _ < 2 := by norm_num
  have hint : |d - R| < 2 := by
    have hc : |((d - R : Int) : ℚ)| < 2 := by push_cast; exact hfinal
    exact_mod_cast hc
  omega

/-- C2 amended witness: a concrete instance at width 8 and rating 80. -/
theorem c2_scale_roundtrip_amended_witness :
    (5 : Int) ≤ 8 ∧ (8 : Int) ≤ 16 ∧
    |convert_raw_to_rating (convert_rating_to_raw ((80 : Int) : ℚ) 8) 8 - clampRating 80| ≤ 1 :=
  ⟨by norm_num, by norm_num, c2_scale_roundtrip_amended 8 80 (by norm_num) (by norm_num)⟩

/-! ### Byte-level lemmas for the field accessor -/

lemma fromBytesLE_testBit (bs : List Nat) (hb : ∀ b ∈ bs, b < 256) (t : Nat) :
    (fromBytesLE bs).testBit t = (bs.getD (t / 8) 0).testBit (t % 8) := by
  induction bs generalizing t with
  | nil => simp [fromBytesLE]
  | cons b bs ih =>
    have hb0 : b < 256 := hb b (by simp)
    have hbs : ∀ x ∈ bs, x < 256 := fun x hx => hb x (by simp [hx])
    by_cases ht : t < 8
    · have hdiv : t / 8 = 0 := by omega
      have hmod : t % 8 = t := by omega
      rw [hdiv, hmod]
      have h256 : (2 : Nat) ^ 8 = 256 := by norm_num
      have hmodv : (b + 256 * fromBytesLE bs) % 2 ^ 8 = b := by
        rw [h256]
        omega
      have hkey := Nat.testBit_mod_two_pow (b + 256 * fromBytesLE bs) 8 t
      rw [hmodv] at hkey
      simp only [fromBytesLE, List.getD_cons_zero]
      rw [hkey, decide_eq_true ht, Bool.true_and]
    · have h256 : (2 : Nat) ^ 8 = 256 := by norm_num
      have hshift : (b + 256 * fromBytesLE bs) >>> 8 = fromBytesLE bs := by
        rw [Nat.shiftRight_eq_div_pow, h256]
        omega
      have hkey : ∀ u, (b + 256 * fromBytesLE bs).testBit (8 + u) = (fromBytesLE bs).testBit u := by
        intro u
        rw [← Nat.testBit_shiftRight, hshift]
      have hkeyt := hkey (t - 8)
      rw [show 8 + (t - 8) = t from by omega] at hkeyt
      have hdiv : t / 8 = (t - 8) / 8 + 1 := by omega
      have hmod : t % 8 = (t - 8) % 8 := by omega
      simp only [fromBytesLE]
      rw [hkeyt, ih hbs (t - 8), hdiv, hmod, List.getD_cons_succ]

lemma rangeMap_getD (f : Nat → Nat) (n i : Nat) :
    ((List.range n).map f).getD i 0 = if i < n then f i else 0 := by
  by_cases h : i < n
  · rw [if_pos h, List.getD_eq_getElem?_getD, List.getElem?_map, List.getElem?_range h]
    rfl
  · rw [if_neg h]
    apply List.getD_eq_default
    simp
    omega

lemma toBytesLE_getD (k n i : Nat) :
    (toBytesLE k n).getD i 0 = if i < k then (n >>> (8 * i)) % 256 else 0 :=
  rangeMap_getD _ k i

lemma toBytesLE_lt_256 (k n : Nat) : ∀ b ∈ toBytesLE k n, b < 256 := by
  intro b hb
  simp only [toBytesLE, List.mem_map] at hb
  obtain ⟨i, _, rfl⟩ := hb
  omega

lemma toBytesLE_length (k n : Nat) : (toBytesLE k n).length = k := by
  simp [toBytesLE]

lemma fromBytesLE_toBytesLE_testBit (k n t : Nat) :
    (fromBytesLE (toBytesLE k n)).testBit t = (decide (t < 8 * k) && n.testBit t) := by
  rw [fromBytesLE_testBit _ (toBytesLE_lt_256 k n) t, toBytesLE_getD]
  by_cases ht : t < 8 * k
  · have hdk : t / 8 < k := by omega
    rw [if_pos hdk, decide_eq_true ht, Bool.true_and]
    have h256 : (256 : Nat) = 2 ^ 8 := by norm_num
    rw [h256, Nat.testBit_mod_two_pow, Nat.testBit_shiftRight]
    have hm8 : t % 8 < 8 := by omega
    rw [decide_eq_true hm8, Bool.true_and]
    congr 1
    omega
  · have hdk : ¬(t / 8 < k) := by omega
    rw [if_neg hdk, decide_eq_false ht, Bool.false_and]
    simp

lemma readBytes_eq_some {m : GameMem} {a n : Nat}
    (h : ∀ i, i < n → m.readable (a + i) = true) :
    readBytes m a n = some ((List.range n).map fun i => memByte m (a + i)) := by
  unfold readBytes
  rw [if_pos]
  rw [List.all_eq_true]
  intro i hi
  exact h i (List.mem_range.mp hi)

lemma writeBytes_eq_some {m : GameMem} {a : Nat} {bs : List Nat}
    (h : ∀ i, i < bs.length → m.writable (a + i) = true) :
    writeBytes m a bs =
      some { m with ram := fun x => if a ≤ x ∧ x < a + bs.length then bs.getD (x - a) 0 else m.ram x } := by
  unfold writeBytes
  rw [if_pos]
  rw [List.all_eq_true]
  intro i hi
  exact h i (List.mem_range.mp hi)

/-- C1: with an attached process, a cached resolved base, and the byte span
of the field readable and writable, `set_field_value` succeeds, a following
`get_field_value` with the identical `(offset, start_bit, length)`
descriptor returns the just-written value clamped to `[0, 2^length - 1]`,
and every bit of memory outside the field's bit span (in particular every
other bit of the record) is unchanged by the write. -/
theorem c1_set_then_get_field (st : Model) (idx off s L : Nat) (v : Int) (base : Nat)
    (hatt : st.mem.attached = true)
    (hcache : st.resolvedPlayerBase = some base)
    (hs : s ≤ 7) (hL1 : 1 ≤ L) (hL64 : L ≤ 64)
    (hrd : ∀ i, i < (s + L + 7) / 8 → st.mem.readable (base + idx * PLAYER_STRIDE + off + i) = true)
    (hwr : ∀ i, i < (s + L + 7) / 8 → st.mem.writable (base + idx * PLAYER_STRIDE + off + i) = true) :
    (setFieldValue st idx off s L v).1 = true ∧
    (getFieldValue (setFieldValue st idx off s L v).2 idx off s L).1 =
      some ((max 0 (min ((2 : Int) ^ L - 1) v)).toNat) ∧
    (∀ a j : Nat, j < 8 →
      (8 * a + j < 8 * (base + idx * PLAYER_STRIDE + off) + s ∨
        8 * (base + idx * PLAYER_STRIDE + off) + s + L ≤ 8 * a + j) →
      (memByte (setFieldValue st idx off s L v).2.mem a).testBit j =
        (memByte st.mem a).testBit j) := by
  set addr := base + idx * PLAYER_STRIDE + off with haddrdef
  set k := (s + L + 7) / 8 with hkdef
  have hsL8 : s + L ≤ 8 * k := by omega
  have hres : resolvePlayerTableBase st = (some base, st) := by
    unfold resolvePlayerTableBase
    rw [hcache]
  have hread : readBytes st.mem addr k =
      some ((List.range k).map fun i => memByte st.mem (addr + i)) :=
    readBytes_eq_some fun i hi => hrd i hi
  set data := (List.range k).map (fun i => memByte st.mem (addr + i)) with hdatadef
  have hdatab : ∀ b ∈ data, b < 256 := by
    intro b hb
    rw [hdatadef] at hb
    simp only [List.mem_map] at hb
    obtain ⟨i, _, rfl⟩ := hb
    unfold memByte
    omega
  set cur := fromBytesLE data with hcurdef
  set vN := (max 0 (min ((2 : Int) ^ L - 1) v)).toNat with hvNdef
  set mask := ((1 <<< L) - 1) <<< s with hmaskdef
  set cur2 := (cur ^^^ (cur &&& mask)) ||| ((vN <<< s) &&& mask) with hcur2def
  have hones : (1 <<< L) - 1 = 2 ^ L - 1 := by
    rw [Nat.shiftLeft_eq, one_mul]
  have hM1 : 1 ≤ 2 ^ L := Nat.one_le_two_pow
  have hcast : ((2 ^ L : Nat) : Int) = (2 : Int) ^ L := by push_cast; ring
  have hvNlt : vN < 2 ^ L := by
    rw [hvNdef, ← hcast]
    omega
  set m2 : GameMem :=
    { st.mem with ram := fun x =>
        if addr ≤ x ∧ x < addr + k then (toBytesLE k cur2).getD (x - addr) 0 else st.mem.ram x }
    with hm2def
  have hwrite : writeBytes st.mem addr (toBytesLE k cur2) = some m2 := by
    rw [writeBytes_eq_some fun i hi => hwr i (by rwa [toBytesLE_length] at hi)]
    rw [hm2def]
    simp only [toBytesLE_length]
  have hset : setFieldValue st idx off s L v = (true, { st with mem := m2 }) := by
    unfold setFieldValue
    rw [hatt]
    simp only [Bool.not_true, Bool.false_eq_true, if_false, hres]
    rw [← haddrdef, ← hkdef, hread]
    simp only [← hdatadef, ← hcurdef, ← hvNdef, ← hmaskdef, ← hcur2def]
    rw [hwrite]
  have hmaskBit : ∀ t, mask.testBit t = (decide (s ≤ t) && decide (t - s < L)) := by
    intro t
    rw [hmaskdef, Nat.testBit_shiftLeft, hones, Nat.testBit_two_pow_sub_one]
  have hcur2Bit : ∀ t, cur2.testBit t =
      if s ≤ t ∧ t - s < L then vN.testBit (t - s) else cur.testBit t := by
    intro t
    rw [hcur2def, Nat.testBit_or, Nat.testBit_xor, Nat.testBit_and, Nat.testBit_and,
      hmaskBit, Nat.testBit_shiftLeft]
    by_cases h1 : s ≤ t
    · by_cases h2 : t - s < L
      · rw [if_pos ⟨h1, h2⟩]
        simp only [decide_eq_true h1, decide_eq_true h2, Bool.and_true, ge_iff_le,
          Bool.true_and]
        cases cur.testBit t <;> cases vN.testBit (t - s) <;> simp
      · rw [if_neg (by tauto)]
        simp [h2]
    · rw [if_neg (by tauto)]
      simp [h1]
  -- the read-back after the write
  have hm2att : m2.attached = true := hatt
  have hres2 : resolvePlayerTableBase { st with mem := m2 } = (some base, { st with mem := m2 }) := by
    unfold resolvePlayerTableBase
    rw [show ({ st with mem := m2 } : Model).resolvedPlayerBase = some base from hcache]
  have hread2 : readBytes m2 addr k =
      some ((List.range k).map fun i => memByte m2 (addr + i)) :=
    readBytes_eq_some fun i hi => hrd i hi
  have hbytes2 : ((List.range k).map fun i => memByte m2 (addr + i)) = toBytesLE k cur2 := by
    unfold toBytesLE
    apply List.map_congr_left
    intro i hi
    have hik : i < k := List.mem_range.mp hi
    show memByte m2 (addr + i) = (cur2 >>> (8 * i)) % 256
    unfold memByte
    have hram : m2.ram (addr + i) = (cur2 >>> (8 * i)) % 256 := by
      show (if addr ≤ addr + i ∧ addr + i < addr + k
        then (toBytesLE k cur2).getD (addr + i - addr) 0 else st.mem.ram (addr + i)) = _
      rw [if_pos ⟨by omega, by omega⟩, show addr + i - addr = i from by omega,
        toBytesLE_getD, if_pos hik]
    rw [hram]
    omega
  have hget : getFieldValue { st with mem := m2 } idx off s L =
      (some ((fromBytesLE (toBytesLE k cur2) >>> s) &&& ((1 <<< L) - 1)),
        { st with mem := m2 }) := by
    unfold getFieldValue
    rw [show ({ st with mem := m2 } : Model).mem.attached = true from hatt]
    simp only [Bool.not_true, Bool.false_eq_true, if_false, hres2]
    rw [← haddrdef, ← hkdef, hread2, hbytes2]
  have hG : (fromBytesLE (toBytesLE k cur2) >>> s) &&& ((1 <<< L) - 1) = vN := by
    apply Nat.eq_of_testBit_eq
    intro u
    rw [Nat.testBit_and, Nat.testBit_shiftRight, fromBytesLE_toBytesLE_testBit,
      hones, Nat.testBit_two_pow_sub_one]
    by_cases hu : u < L
    · have h1 : s + u < 8 * k := by omega
      rw [decide_eq_true h1, decide_eq_true hu, Bool.true_and, Bool.and_true]
      rw [hcur2Bit (s + u), if_pos ⟨by omega, by omega⟩,
        show s + u - s = u from by omega]
    · have hvNu : vN.testBit u = false := by
        apply Nat.testBit_lt_two_pow
        calc vN < 2 ^ L := hvNlt
        _ ≤ 2 ^ u := Nat.pow_le_pow_right (by norm_num) (by omega)
      rw [hvNu, decide_eq_false hu]
      simp
  refine ⟨by rw [hset], ?_, ?_⟩
  · rw [hset]
    show (getFieldValue { st with mem := m2 } idx off s L).1 = some vN
    rw [hget, hG]
  · intro a j hj hout
    rw [hset]
    show (memByte m2 a).testBit j = (memByte st.mem a).testBit j
    by_cases hin : addr ≤ a ∧ a < addr + k
    · have hIdx : a - addr < k := by omega
      have hram : m2.ram a = (cur2 >>> (8 * (a - addr))) % 256 := by
        show (if addr ≤ a ∧ a < addr + k
          then (toBytesLE k cur2).getD (a - addr) 0 else st.mem.ram a) = _
        rw [if_pos hin, toBytesLE_getD, if_pos hIdx]
      have hbit2 : (memByte m2 a).testBit j = cur2.testBit (8 * (a - addr) + j) := by
        unfold memByte
        rw [hram, show ((cur2 >>> (8 * (a - addr))) % 256) % 256 =
          (cur2 >>> (8 * (a - addr))) % 256 from by omega,
          show (256 : Nat) = 2 ^ 8 from by norm_num,
          Nat.testBit_mod_two_pow, Nat.testBit_shiftRight, decide_eq_true hj, Bool.true_and]
      have htout : 8 * (a - addr) + j < s ∨ s + L ≤ 8 * (a - addr) + j := by omega
      rw [hbit2, hcur2Bit (8 * (a - addr) + j),
        if_neg (by rcases htout with h | h <;> omega)]
      rw [hcurdef, fromBytesLE_testBit data hdatab]
      have ht8 : (8 * (a - addr) + j) / 8 = a - addr := by omega
      have htm : (8 * (a - addr) + j) % 8 = j := by omega
      rw [ht8, htm, hdatadef, rangeMap_getD, if_pos hIdx,
        show addr + (a - addr) = a from by omega]
    · have hram : m2.ram a = st.mem.ram a := by
        show (if addr ≤ a ∧ a < addr + k
          then (toBytesLE k cur2).getD (a - addr) 0 else st.mem.ram a) = st.mem.ram a
        rw [if_neg hin]
      unfold memByte
      rw [hram]

/-- C1 witness: a concrete write of 1234 into an 11-bit field at offset 5,
start bit 3 of record 1, read back through the identical descriptor, plus
one concrete untouched byte. -/
theorem c1_set_then_get_field_witness :
    (setFieldValue stFieldDemo 1 5 3 11 1234).1 = true ∧
    (getFieldValue (setFieldValue stFieldDemo 1 5 3 11 1234).2 1 5 3 11).1 = some 1234 ∧
    (memByte (setFieldValue stFieldDemo 1 5 3 11 1234).2.mem 9999).testBit 0 =
      (memByte stFieldDemo.mem 9999).testBit 0 := by
  have h := c1_set_then_get_field stFieldDemo 1 5 3 11 1234 0x1000 rfl rfl
    (by norm_num) (by norm_num) (by norm_num)
    (fun i _ => rfl) (fun i _ => rfl)
  refine ⟨h.1, ?_, h.2.2 9999 0 (by norm_num) (by right; norm_num [PLAYER_STRIDE])⟩
  rw [h.2.1]
  norm_num
  rfl

/-! ### Error surfacing of the field accessors -/

lemma readBytes_eq_none {m : GameMem} {a n : Nat}
    (h : ¬ ∀ i, i < n → m.readable (a + i) = true) : readBytes m a n = none := by
  unfold readBytes
  rw [if_neg]
  intro hall
  apply h
  intro i hi
  rw [List.all_eq_true] at hall
  exact hall i (List.mem_range.mpr hi)

lemma writeBytes_eq_none {m : GameMem} {a : Nat} {bs : List Nat}
    (h : ¬ ∀ i, i < bs.length → m.writable (a + i) = true) : writeBytes m a bs = none := by
  unfold writeBytes
  rw [if_neg]
  intro hall
  apply h
  intro i hi
  rw [List.all_eq_true] at hall
  exact hall i (List.mem_range.mpr hi)

lemma resolvePlayerTableBase_mem (st : Model) : (resolvePlayerTableBase st).2.mem = st.mem := by
  unfold resolvePlayerTableBase
  cases hc : st.resolvedPlayerBase
  · by_cases hatt : (!st.mem.attached) = true
    · rw [if_pos hatt]
    · rw [if_neg hatt]
      cases hl : (resolveLoop playerValidate st.mem PLAYER_PTR_CHAINS).1 with
      | none =>
        simp only [hl]
        by_cases hv : playerValidate st.mem (st.mem.baseAddr + PLAYER_TABLE_RVA) = true
        · rw [if_pos hv]
        · rw [if_neg hv]
      | some tb => simp [hl]
  · rfl

/-- C8: `get_field_value` and `set_field_value` are total in the model
(every OS-level exception is caught) and their failure results characterise
exactly the failure causes: a get returns a value iff the process is open,
a table base resolves, and the field's byte span is readable; a set returns
`True` iff additionally the span is writable.  Any failure is surfaced as
`none` / `false`, never as an unwinding exception. -/
theorem c8_failure_surfacing (st : Model) (idx off s L : Nat) (v : Int) :
    ((getFieldValue st idx off s L).1 ≠ none ↔
      st.mem.attached = true ∧
      ∃ base, (resolvePlayerTableBase st).1 = some base ∧
        ∀ i, i < (s + L + 7) / 8 →
          st.mem.readable (base + idx * PLAYER_STRIDE + off + i) = true) ∧
    ((setFieldValue st idx off s L v).1 = true ↔
      st.mem.attached = true ∧
      ∃ base, (resolvePlayerTableBase st).1 = some base ∧
        (∀ i, i < (s + L + 7) / 8 →
          st.mem.readable (base + idx * PLAYER_STRIDE + off + i) = true) ∧
        (∀ i, i < (s + L + 7) / 8 →
          st.mem.writable (base + idx * PLAYER_STRIDE + off + i) = true)) := by
  have hmem := resolvePlayerTableBase_mem st
  by_cases hatt : st.mem.attached = true
  · rcases hres : resolvePlayerTableBase st with ⟨o, st1⟩
    have hst1 : st1.mem = st.mem := by rw [hres] at hmem; exact hmem
    cases o with
    | none =>
      constructor
      · unfold getFieldValue
        rw [hatt, hres]
        simp
      · unfold setFieldValue
        rw [hatt, hres]
        simp
    | some base =>
      by_cases hrd : ∀ i, i < (s + L + 7) / 8 →
          st.mem.readable (base + idx * PLAYER_STRIDE + off + i) = true
      · have hread : readBytes st1.mem (base + idx * PLAYER_STRIDE + off) ((s + L + 7) / 8) =
            some ((List.range ((s + L + 7) / 8)).map
              fun i => memByte st1.mem (base + idx * PLAYER_STRIDE + off + i)) := by
          apply readBytes_eq_some
          intro i hi
          rw [hst1]
          exact hrd i hi
        constructor
        · unfold getFieldValue
          rw [hatt, hres]
          simp only [Bool.not_true, Bool.false_eq_true, if_false, hread]
          simp only [ne_eq, Option.some.injEq, reduceCtorEq, not_false_eq_true, true_iff,
            hatt, true_and]
          exact ⟨base, rfl, hrd⟩
        · unfold setFieldValue
          rw [hatt, hres]
          simp only [Bool.not_true, Bool.false_eq_true, if_false, hread]
          by_cases hwr : ∀ i, i < (s + L + 7) / 8 →
              st.mem.writable (base + idx * PLAYER_STRIDE + off + i) = true
          · rw [writeBytes_eq_some]
            · simp only [hatt, true_and, true_iff]
              exact ⟨base, rfl, hrd, hwr⟩
            · intro i hi
              rw [toBytesLE_length] at hi
              rw [hst1]
              exact hwr i hi
          · rw [writeBytes_eq_none]
            · simp only [Bool.false_eq_true, false_iff, hatt, true_and]
              rintro ⟨base', hb, -, hw⟩
              rw [Option.some.injEq] at hb
              subst hb
              exact hwr hw
            · rw [toBytesLE_length, hst1]
              exact hwr
      · have hread : readBytes st1.mem (base + idx * PLAYER_STRIDE + off) ((s + L + 7) / 8) =
            none := by
          apply readBytes_eq_none
          rw [hst1]
          exact hrd
        constructor
        · unfold getFieldValue
          rw [hatt, hres]
          simp only [Bool.not_true, Bool.false_eq_true, if_false, hread]
          simp only [ne_eq, not_true_eq_false, false_iff, hatt, true_and, not_exists]
          rintro base' ⟨hb, hr⟩
          rw [Option.some.injEq] at hb
          subst hb
          exact hrd hr
        · unfold setFieldValue
          rw [hatt, hres]
          simp only [Bool.not_true, Bool.false_eq_true, if_false, hread]
          simp only [Bool.false_eq_true, false_iff, hatt, true_and, not_exists]
          rintro base' ⟨hb, hr, -⟩
          rw [Option.some.injEq] at hb
          subst hb
          exact hrd hr
  · have hf : st.mem.attached = false := by
      cases h : st.mem.attached
      · rfl
      · exact absurd h hatt
    constructor
    · unfold getFieldValue
      rw [hf]
      simp [hf]
    · unfold setFieldValue
      rw [hf]
      simp [hf]

/-! ### Pointer resolution order, caching and fallback -/

lemma resolveLoop_first_success (V : GameMem → Nat → Bool) (m : GameMem)
    (pre : List (Nat × Nat × Bool)) (c : Nat × Nat × Bool) (post : List (Nat × Nat × Bool))
    (tb : Nat)
    (hpre : ∀ c' ∈ pre, chainOk V m c' = false)
    (hcb : chainBase m c = some tb) (hv : V m tb = true) :
    resolveLoop V m (pre ++ c :: post) = (some tb, pre.filterMap (chainBase m) ++ [tb]) := by
  induction pre with
  | nil =>
    simp only [List.nil_append, List.filterMap_nil]
    unfold resolveLoop
    simp only [hcb]
    rw [if_pos hv]
  | cons c' pre ih =>
    have hc' := hpre c' (by simp)
    have hrest : ∀ x ∈ pre, chainOk V m x = false := fun x hx => hpre x (by simp [hx])
    simp only [List.cons_append]
    unfold resolveLoop
    unfold chainOk at hc'
    cases hcb' : chainBase m c' with
    | none =>
      simp only [hcb'] at hc' ⊢
      rw [ih hrest]
      simp [List.filterMap_cons, hcb']
    | some tb' =>
      simp only [hcb'] at hc' ⊢
      rw [if_neg (by simp [hc'])]
      rw [ih hrest]
      simp [List.filterMap_cons, hcb']

/-- C3 amended: candidates are tried strictly in list order and the first
fully successful candidate's base is returned with no later candidate
attempted (first conjunct, with the instrumented list of validated bases);
a successful resolution is cached and a cached value is returned directly
(conjuncts 2, 3, 6, 7); when no candidate validates, the player-table
resolver tries the static fallback `module_base + PLAYER_TABLE_RVA` with
the same validator (conjunct 4), while the team-table resolver reports
failure with no fallback (conjunct 5) — the claim asserted the fallback
for both resolvers, which the counterexample refutes for the team table. -/
theorem c3_resolution_amended :
    (∀ (V : GameMem → Nat → Bool) (m : GameMem) pre c post tb,
      (∀ c' ∈ pre, chainOk V m c' = false) → chainBase m c = some tb → V m tb = true →
      resolveLoop V m (pre ++ c :: post) = (some tb, pre.filterMap (chainBase m) ++ [tb])) ∧
    (∀ st : Model, st.resolvedPlayerBase = none → st.mem.attached = true →
      ∀ tb, (resolveLoop playerValidate st.mem PLAYER_PTR_CHAINS).1 = some tb →
      resolvePlayerTableBase st = (some tb, { st with resolvedPlayerBase := some tb })) ∧
    (∀ st : Model, st.resolvedTeamBase = none → st.mem.attached = true →
      ∀ tb, (resolveLoop teamValidate st.mem TEAM_PTR_CHAINS).1 = some tb →
      resolveTeamBasePtr st = (some tb, { st with resolvedTeamBase := some tb })) ∧
    (∀ st : Model, st.resolvedPlayerBase = none → st.mem.attached = true →
      (resolveLoop playerValidate st.mem PLAYER_PTR_CHAINS).1 = none →
      playerValidate st.mem (st.mem.baseAddr + PLAYER_TABLE_RVA) = true →
      resolvePlayerTableBase st =
        (some (st.mem.baseAddr + PLAYER_TABLE_RVA),
          { st with resolvedPlayerBase := some (st.mem.baseAddr + PLAYER_TABLE_RVA) })) ∧
    (∀ st : Model, st.resolvedTeamBase = none → st.mem.attached = true →
      (resolveLoop teamValidate st.mem TEAM_PTR_CHAINS).1 = none →
      (resolveTeamBasePtr st).1 = none) ∧
    (∀ st : Model, ∀ b, st.resolvedPlayerBase = some b →
      resolvePlayerTableBase st = (some b, st)) ∧
    (∀ st : Model, ∀ b, st.resolvedTeamBase = some b →
      resolveTeamBasePtr st = (some b, st)) := by
  refine ⟨resolveLoop_first_success, ?_, ?_, ?_, ?_, ?_, ?_⟩
  · intro st hc hatt tb hl
    unfold resolvePlayerTableBase
    rw [hc]
    simp only [hatt, Bool.not_true, Bool.false_eq_true, if_false, hl]
  · intro st hc hatt tb hl
    unfold resolveTeamBasePtr
    rw [hc]
    simp only [hatt, Bool.not_true, Bool.false_eq_true, if_false, hl]
  · intro st hc hatt hl hv
    unfold resolvePlayerTableBase
    rw [hc]
    simp only [hatt, Bool.not_true, Bool.false_eq_true, if_false, hl]
    rw [if_pos hv]
  · intro st hc hatt hl
    unfold resolveTeamBasePtr
    rw [hc]
    simp only [hatt, Bool.not_true, Bool.false_eq_true, if_false, hl]
  · intro st b hb
    unfold resolvePlayerTableBase
    rw [hb]
  · intro st b hb
    unfold resolveTeamBasePtr
    rw [hb]

/-- C3 counterexample: on `stTeamNoFallback` every team candidate is
dereferenced and fails validation, the resolver reports failure, every
base address on which validation was ever attempted lies below the module
base (so no address of the form `module_base + constant` was tried), and
yet the static fallback address `module_base + 0x18` would have validated
— so the team-table resolver has no static fallback, contradicting the
claim. -/
theorem c3_counterexample :
    (resolveTeamBasePtr stTeamNoFallback).1 = none ∧
    (resolveLoop teamValidate stTeamNoFallback.mem TEAM_PTR_CHAINS).2 =
      [0x88, 0x1000, 0x1000] ∧
    ((resolveLoop teamValidate stTeamNoFallback.mem TEAM_PTR_CHAINS).2.all
      (fun a => a < stTeamNoFallback.mem.baseAddr)) = true ∧
    teamValidate stTeamNoFallback.mem (stTeamNoFallback.mem.baseAddr + 0x18) = true := by
  refine ⟨by decide, by decide, by decide, by decide⟩

/-- C3 witness: on `stPlayerThirdChain` the first two player candidates
fail validation and the third succeeds, so the loop returns the third
candidate's base `0x2000` having attempted exactly the three bases. -/
theorem c3_resolution_amended_witness :
    resolveLoop playerValidate stPlayerThirdChain.mem PLAYER_PTR_CHAINS =
      (some 0x2000, [0x18, 0x1148, 0x2000]) := by
  have h := c3_resolution_amended.1 playerValidate stPlayerThirdChain.mem
    [(0x07E39430, 0x18, true), (0x06E14E48, 0x148, false)]
    (0x07E52998, 0x0, false) [(0x07E5DD88, 0x0, false)] 0x2000
    (by decide) (by decide) (by decide)
  exact h.trans (by decide)

/-! ### The player-scan sanity heuristic -/

/-- C4 amended: the scan discards everything exactly when junk records —
accepted records containing at least one decoded name character outside
the printable baseline set — are the strict majority of accepted records;
otherwise the full decoded list is returned.  (The claim stated the
criterion over individual characters; the code counts records, see the
counterexample.) -/
theorem c4_scan_heuristic_amended (st : Model) (maxScan tableBase : Nat)
    (hatt : st.mem.attached = true)
    (hcache : st.resolvedPlayerBase = some tableBase) :
    (2 * (scanPlayersLoop st tableBase maxScan).countP playerHasJunk >
        (scanPlayersLoop st tableBase maxScan).length →
      (scanAllPlayers st maxScan).1 = []) ∧
    (2 * (scanPlayersLoop st tableBase maxScan).countP playerHasJunk ≤
        (scanPlayersLoop st tableBase maxScan).length →
      (scanAllPlayers st maxScan).1 = scanPlayersLoop st tableBase maxScan) := by
  have hres : resolvePlayerTableBase st = (some tableBase, st) := by
    unfold resolvePlayerTableBase
    rw [hcache]
  have hscan : scanAllPlayers st maxScan =
      (let players := scanPlayersLoop st tableBase maxScan
       if players.isEmpty then (players, st)
       else if players.length < 2 * players.countP playerHasJunk then ([], st)
       else (players, st)) := by
    unfold scanAllPlayers
    rw [hatt]
    simp only [Bool.not_true, Bool.false_eq_true, if_false, hres]
  constructor
  · intro hjunk
    rw [hscan]
    by_cases hE : (scanPlayersLoop st tableBase maxScan).isEmpty
    · rw [List.isEmpty_iff] at hE
      rw [hE] at hjunk
      simp at hjunk
    · simp only [hE, Bool.false_eq_true, if_false]
      rw [if_pos (by omega)]
  · intro hjunk
    rw [hscan]
    by_cases hE : (scanPlayersLoop st tableBase maxScan).isEmpty
    · simp only [hE, if_true]
    · simp only [hE, Bool.false_eq_true, if_false]
      rw [if_neg (by omega)]

/-- C4 counterexample: on `stScanJunk` three records decode, only 2 of
their 12 decoded name characters are outside the baseline set (strictly
less than half), yet the whole scan result is discarded — the code counts
junk records (any record with at least one bad character), not junk
characters. -/
theorem c4_counterexample :
    (scanAllPlayers stScanJunk 3).1 = [] ∧
    scanPlayersLoop stScanJunk 0x1000 3 ≠ [] ∧
    2 * junkCharCount (scanPlayersLoop stScanJunk 0x1000 3) ≤
      totalCharCount (scanPlayersLoop stScanJunk 0x1000 3) :=
  ⟨by decide, by decide, by decide⟩

/-- C4 witness: the amended record-majority criterion applied to the
concrete scan. -/
theorem c4_scan_heuristic_amended_witness : (scanAllPlayers stScanJunk 3).1 = [] := by
  have h := (c4_scan_heuristic_amended stScanJunk 3 0x1000 rfl rfl).1
  apply h
  decide

/-! ### Team-name deduplication -/

lemma unitsToNat_append_digit (xs : List Nat) (d : Nat) :
    unitsToNat (xs ++ [d]) = unitsToNat xs * 10 + (d - 48) := by
  unfold unitsToNat
  rw [List.foldl_append]
  rfl

lemma unitsToNat_natUnitsAux : ∀ fuel n, n < fuel → unitsToNat (natUnitsAux fuel n) = n := by
  intro fuel
  induction fuel with
  | zero => omega
  | succ fuel ih =>
    intro n h
    unfold natUnitsAux
    by_cases h10 : n < 10
    · rw [if_pos h10]
      unfold unitsToNat
      simp only [List.foldl_cons, List.foldl_nil]
      omega
    · rw [if_neg h10]
      rw [unitsToNat_append_digit, ih (n / 10) (by omega)]
      omega

lemma natUnits_leftInverse (n : Nat) : unitsToNat (natUnits n) = n :=
  unitsToNat_natUnitsAux (n + 1) n (by omega)

lemma natUnits_injective {a b : Nat} (h : natUnits a = natUnits b) : a = b := by
  have := congrArg unitsToNat h
  rwa [natUnits_leftInverse, natUnits_leftInverse] at this

lemma bracketLabel_inj {n n' : PyStr} {i j : Nat}
    (hn : n = n')
    (h : n ++ [32, 91] ++ natUnits i ++ [93] = n' ++ [32, 91] ++ natUnits j ++ [93]) :
    i = j := by
  subst hn
  have h1 := List.append_cancel_right h
  have h2 := List.append_cancel_left h1
  exact natUnits_injective h2

lemma getD_of_lt {α} (l : List α) (d : α) (i : Nat) (h : i < l.length) :
    l.getD i d = l[i] := by
  rw [List.getD_eq_getElem?_getD, List.getElem?_eq_getElem h]
  rfl

lemma two_le_countP_of_getD {α} (p : α → Bool) (xs : List α) (d : α) :
    ∀ k l, k < xs.length → l < xs.length → k ≠ l →
    p (xs.getD k d) = true → p (xs.getD l d) = true → 2 ≤ xs.countP p := by
  induction xs with
  | nil => intro k l hk; simp at hk
  | cons x xs ih =>
    intro k l hk hl hne h1 h2
    rw [List.countP_cons]
    match k, l with
    | 0, 0 => exact absurd rfl hne
    | 0, l' + 1 =>
      have hx : p x = true := h1
      have hl' : l' < xs.length := by simpa using hl
      have hmem : p (xs.getD l' d) = true := h2
      have hpos : 0 < xs.countP p := by
        rw [List.countP_pos_iff]
        exact ⟨xs.getD l' d, by rw [getD_of_lt _ _ _ hl']; exact List.getElem_mem hl', hmem⟩
      rw [if_pos hx]
      omega
    | k' + 1, 0 =>
      have hx : p x = true := h2
      have hk' : k' < xs.length := by simpa using hk
      have hmem : p (xs.getD k' d) = true := h1
      have hpos : 0 < xs.countP p := by
        rw [List.countP_pos_iff]
        exact ⟨xs.getD k' d, by rw [getD_of_lt _ _ _ hk']; exact List.getElem_mem hk', hmem⟩
      rw [if_pos hx]
      omega
    | k' + 1, l' + 1 =>
      have := ih k' l' (by simpa using hk) (by simpa using hl) (by omega) h1 h2
      split <;> omega

lemma dedupe_getD (pairs : List (Nat × PyStr)) (k : Nat) (hk : k < pairs.length) :
    (dedupeTeamNames pairs).getD k (0, []) =
      (let p := pairs.getD k (0, [])
       if 1 < pairs.countP (fun q => q.2 = p.2) then
         (p.1, p.2 ++ [32, 91] ++ natUnits p.1 ++ [93])
       else p) := by
  unfold dedupeTeamNames
  rw [getD_of_lt _ _ _ (by simpa using hk), List.getElem_map, ← getD_of_lt _ (0, ([] : PyStr)) _ hk]

/-- C5 amended: after deduplication every name occurring on more than one
slot is replaced by the name followed by its own raw slot index in
brackets and every uniquely named entry is returned unmodified (second
conjunct); two entries that shared a display name but sit on distinct
slots never compare equal by name in the result (third conjunct).  The
claim's global pairwise distinctness can fail when an original name
already equals another entry's bracketed form, see the counterexample. -/
theorem c5_dedupe_amended (pairs : List (Nat × PyStr)) :
    (dedupeTeamNames pairs).length = pairs.length ∧
    (∀ k, k < pairs.length →
      (dedupeTeamNames pairs).getD k (0, []) =
        (let p := pairs.getD k (0, [])
         if 1 < pairs.countP (fun q => q.2 = p.2) then
           (p.1, p.2 ++ [32, 91] ++ natUnits p.1 ++ [93])
         else p)) ∧
    (∀ k l, k < pairs.length → l < pairs.length → k ≠ l →
      (pairs.getD k (0, [])).2 = (pairs.getD l (0, [])).2 →
      (pairs.getD k (0, [])).1 ≠ (pairs.getD l (0, [])).1 →
      ((dedupeTeamNames pairs).getD k (0, [])).2 ≠
        ((dedupeTeamNames pairs).getD l (0, [])).2) := by
  refine ⟨by unfold dedupeTeamNames; simp, fun k hk => dedupe_getD pairs k hk, ?_⟩
  intro k l hk hl hne hsame hfst
  have hcount : 1 < pairs.countP (fun q => q.2 = (pairs.getD k (0, [])).2) := by
    have h2 := two_le_countP_of_getD (fun q => decide (q.2 = (pairs.getD k (0, [])).2))
      pairs (0, []) k l hk hl hne (by simp) (by rw [hsame]; simp)
    omega
  have hfun : (fun q : Nat × PyStr => decide (q.2 = (pairs.getD l (0, [])).2)) =
      (fun q : Nat × PyStr => decide (q.2 = (pairs.getD k (0, [])).2)) := by
    funext q
    rw [← hsame]
  have hcount' : 1 < pairs.countP (fun q => q.2 = (pairs.getD l (0, [])).2) := by
    rw [show (fun q : Nat × PyStr => decide (q.2 = (pairs.getD l (0, [])).2)) =
      (fun q : Nat × PyStr => decide (q.2 = (pairs.getD k (0, [])).2)) from hfun]
    exact hcount
  rw [dedupe_getD pairs k hk, dedupe_getD pairs l hl]
  simp only [if_pos hcount, if_pos hcount']
  intro heq
  exact hfst (bracketLabel_inj hsame heq)

/-- C5 counterexample: slots 1 and 2 named `"Ab"` and slot 3 named
`"Ab [1]"` — a value the group scan accepts — dedupe to a list in which
the first and the third entry carry the same display name `"Ab [1]"`,
refuting the claim that no two entries of the result compare equal by
name. -/
theorem c5_counterexample :
    ((dedupeTeamNames dedupeClashPairs).getD 0 (0, [])).2 =
      ((dedupeTeamNames dedupeClashPairs).getD 2 (0, [])).2 ∧
    (dedupeTeamNames dedupeClashPairs).length = 3 :=
  ⟨by decide, by decide⟩

/-- C5 witness: the two colliding `"Ab"` slots receive distinct bracketed
labels. -/
theorem c5_dedupe_amended_witness :
    ((dedupeTeamNames dedupeClashPairs).getD 0 (0, [])).2 ≠
      ((dedupeTeamNames dedupeClashPairs).getD 1 (0, [])).2 :=
  (c5_dedupe_amended dedupeClashPairs).2.2 0 1 (by decide) (by decide) (by decide)
    (by decide) (by decide)

/-! ### Group label composition -/

lemma formatHistoricYear_pos {val : Nat} (h : 0 < val) :
    formatHistoricYear val =
      [48 + (1899 + val) % 100 / 10, 48 + (1899 + val) % 100 % 10, 45,
       48 + (1899 + val + 1) % 100 / 10, 48 + (1899 + val + 1) % 100 % 10] := by
  unfold formatHistoricYear
  rw [if_neg (by omega)]

/-- C6 (code bug): `GameMemory` defines no `read_uint16`, so the era read
of `_compose_team_name_from_ptr` raises `AttributeError` on every call and
the caught exception forces `year_val = 0`: the program's label is always
the bare stripped base name passed through the printability bar, and the
year suffix the claim describes is never appended. -/
theorem c6_no_year_suffix (st : Model) (teamPtr : Nat) :
    composeTeamNameFromPtr st teamPtr = specBaseOnlyGroupLabel st teamPtr := by
  unfold composeTeamNameFromPtr specBaseOnlyGroupLabel
  rfl

/-- C6 counterexample: a team record with the printable name `"Ed"` and a
non-zero era bitfield (year halfword 8, era bits 1): the claimed
composition appends `" 00-01"` (code units `32, 48, 48, 45, 48, 49`), but
the program's label is the bare name. -/
theorem c6_counterexample :
    composeTeamNameFromPtr stEraDemo 0x3000 = [69, 100] ∧
    specGroupLabel stEraDemo 0x3000 = [69, 100, 32, 48, 48, 45, 48, 49] ∧
    composeTeamNameFromPtr stEraDemo 0x3000 ≠ specGroupLabel stEraDemo 0x3000 :=
  ⟨by decide, by decide, by decide⟩

/-! ### Offsets restructuring -/

lemma insertEntry_lookup (m : List (PyStr × List FieldEntry)) (k : PyStr) (e : FieldEntry)
    (o : PyStr) :
    (insertEntry m k e).lookup o =
      if o = k then some (((m.lookup o).getD []) ++ [e]) else m.lookup o := by
  induction m with
  | nil =>
    unfold insertEntry
    by_cases h : o = k
    · subst h
      simp [List.lookup]
    · simp [List.lookup, beq_false_of_ne h, h]
  | cons p m ih =>
    obtain ⟨k', es⟩ := p
    unfold insertEntry
    by_cases hk : k' = k
    · subst hk
      rw [if_pos rfl]
      by_cases ho : o = k'
      · subst ho
        rw [if_pos rfl]
        simp [List.lookup]
      · rw [if_neg ho]
        simp [List.lookup, beq_false_of_ne ho]
    · rw [if_neg hk]
      by_cases ho : o = k'
      · subst ho
        rw [if_neg fun h => hk h]
        simp [List.lookup]
      · simp [List.lookup, beq_false_of_ne ho, ih]

lemma categoryMap_foldl_lookup (fields : List FieldDict)
    (acc : List (PyStr × List FieldEntry)) (o : PyStr) :
    (fields.foldl
      (fun acc f =>
        match truthyOffset f.offset with
        | none => acc
        | some k => insertEntry acc k (mkEntry f)) acc).lookup o =
      match acc.lookup o with
      | some l =>
        some (l ++ (fields.filter fun f => truthyOffset f.offset = some o).map mkEntry)
      | none =>
        if ((fields.filter fun f => truthyOffset f.offset = some o).map mkEntry).isEmpty
        then none
        else some ((fields.filter fun f => truthyOffset f.offset = some o).map mkEntry) := by
  induction fields generalizing acc with
  | nil =>
    cases hA : acc.lookup o <;> simp [hA]
  | cons f fs ih =>
    cases htf : truthyOffset f.offset with
    | none =>
      simp only [List.foldl_cons, List.filter_cons, htf]
      rw [ih]
      simp
    | some k =>
      by_cases ho : o = k
      · subst ho
        simp only [List.foldl_cons, List.filter_cons, htf]
        rw [ih, insertEntry_lookup, if_pos rfl]
        cases hA : acc.lookup o <;> simp [hA]
      · have hd : ¬ truthyOffset f.offset = some o := by
          rw [htf]
          exact fun h => ho (Option.some.inj h).symm
        rw [List.foldl_cons, List.filter_cons_of_neg (by simp [hd])]
        simp only [htf]
        rw [ih, insertEntry_lookup, if_neg ho]

lemma categoryMap_lookup (fields : List FieldDict) (o : PyStr) :
    (categoryMap fields).lookup o = specCategoryLookup fields o := by
  unfold categoryMap specCategoryLookup
  rw [categoryMap_foldl_lookup]
  simp [List.lookup]

/-- C9: `restructure` preserves the key list and its length; at each index,
a key lowercasing to `"base"` keeps its value unchanged, a list-valued
category is replaced by its offset-keyed grouping `categoryMap`, and any
other value is copied through; and looking up an offset in the grouping
yields exactly the simplified entries of the fields carrying that offset,
in original order (fields with a missing or empty offset dropped), absent
when no field carries it. -/
theorem c9_restructure (offsets : List (PyStr × PyVal)) (i : Nat)
    (hi : i < offsets.length) (o : PyStr) :
    (restructure offsets).length = offsets.length ∧
    (restructure offsets).get ⟨i, by simpa [restructure] using hi⟩ =
      (let p := offsets.get ⟨i, hi⟩
       if lowerUnits p.1 = BASE_KEY_UNITS then (p.1, RVal.keep p.2)
       else
         match p.2 with
         | PyVal.vlist fields => (p.1, RVal.catmap (categoryMap fields))
         | v => (p.1, RVal.keep v)) ∧
    ∀ fields : List FieldDict,
      (categoryMap fields).lookup o = specCategoryLookup fields o := by
  refine ⟨by simp [restructure], ?_, fun fields => categoryMap_lookup fields o⟩
  simp [restructure, List.get_eq_getElem, List.getElem_map]

/-- C9 witness: the theorem applied to the concrete two-key dictionary at
index zero and the shared offset `"0x39B"`, with the spec-side lookup
evaluated: the two fields sharing the offset are grouped in order and the
two falsy-offset fields are dropped. -/
theorem c9_restructure_witness :
    (0 < c9Offsets.length ∧
     (restructure c9Offsets).length = c9Offsets.length ∧
     (categoryMap c9Fields).lookup [48, 120, 51, 57, 66] =
       specCategoryLookup c9Fields [48, 120, 51, 57, 66]) ∧
    specCategoryLookup c9Fields [48, 120, 51, 57, 66] =
      some [⟨some [80, 97], some 8, 0⟩, ⟨some [66, 99], some 8, 4⟩] :=
  ⟨⟨by decide,
    (c9_restructure c9Offsets 0 (by decide) [48, 120, 51, 57, 66]).1,
    (c9_restructure c9Offsets 0 (by decide) [48, 120, 51, 57, 66]).2.2 c9Fields⟩,
   by decide⟩
